import Mathlib

/-!
Shallow embedding of the Spellcast game-rules engine
(`src/server/server.ts`, shared rules section: `submitWord`, `shuffleBoard`,
`requestSwapMode`, `applySwap`, `advanceTurn`, `advanceRound`,
`createInitialGameState`, the letter bag, and the board helpers), together
with the socket-handler turn gate (`ensurePlayerTurn`).

JavaScript `Math.random()` draws are modelled by an explicit stream of
natural numbers (`Rng`); `Math.floor(Math.random() * n)` becomes a value
`< n` taken from the stream, and a comparison `Math.random() < p` becomes an
abstract boolean choice.  All theorems quantify over the stream, hence over
every possible sequence of random outcomes.

JS `Map` objects are modelled as insertion-ordered association lists with
set-overwrite semantics; JS string truthiness (where `""` and `undefined`
are falsy) is modelled explicitly.
-/

namespace Spellcast

/-- Explicit random stream with a cursor, standing in for `Math.random()`. -/
structure Rng where
  stream : Nat → Nat
  pos : Nat

/-- Pull one raw value off the stream. -/
def Rng.next (r : Rng) : Nat × Rng :=
  (r.stream r.pos, { r with pos := r.pos + 1 })

/-- `Math.floor(Math.random() * n)`: a value `< n` (and `0` when `n = 0`). -/
def Rng.below (r : Rng) (n : Nat) : Nat × Rng :=
  let (k, r') := r.next
  (if n = 0 then 0 else k % n, r')

/-- `Math.random() < p` for a fixed threshold `p`: an abstract boolean choice. -/
def Rng.chance (r : Rng) : Bool × Rng :=
  let (k, r') := r.next
  (k % 2 = 0, r')

/-- JS `String.prototype.trim()` (ASCII whitespace suffices for this code). -/
def jsTrim (s : String) : String :=
  String.mk (((s.data.dropWhile Char.isWhitespace).reverse.dropWhile Char.isWhitespace).reverse)

/-- JS `s.charAt(0)`: the first character as a string, `""` when empty. -/
def jsCharAt0 (s : String) : String :=
  match s.data with
  | [] => ""
  | c :: _ => String.mk [c]

/-- JS `s.includes(sub)`: substring containment; `s.includes("")` is `true`. -/
def jsIncludes (s sub : String) : Bool :=
  decide (List.IsInfix sub.data s.data)

/-- JS `s.toUpperCase()` (ASCII), as a computable per-character map. -/
def jsToUpper (s : String) : String :=
  String.mk (s.data.map Char.toUpper)

/-- JS `s.toLowerCase()` (ASCII), as a computable per-character map. -/
def jsToLower (s : String) : String :=
  String.mk (s.data.map Char.toLower)

/-- JS string truthiness of an optional string: `undefined` and `""` are falsy. -/
def strTruthy : Option String → Bool
  | Option.none => false
  | Option.some s => s != ""

/-! ### JS `Map<string, number>` as an insertion-ordered association list -/

/-- The letter bag: a JS `Map` from letter key to remaining count. -/
abbrev Bag := List (String × Int)

/-- `map.get(k)`. -/
def mapGet (m : Bag) (k : String) : Option Int :=
  (m.find? (fun e => e.1 = k)).map (fun e => e.2)

/-- `map.set(k, v)`: overwrite in place, or append when the key is new. -/
def mapSet (m : Bag) (k : String) (v : Int) : Bag :=
  if m.any (fun e => e.1 = k) then
    m.map (fun e => if e.1 = k then (k, v) else e)
  else
    m ++ [(k, v)]

/-! ### Constants (`shared/constants.ts` and the rules module) -/

/-- Per-letter point values (`LETTER_VALUES`, keyed by lowercase letter). -/
def LETTER_VALUES : List (String × Int) :=
  [("a", 1), ("b", 4), ("c", 5), ("d", 3), ("e", 1), ("f", 5), ("g", 3),
   ("h", 4), ("i", 1), ("j", 7), ("k", 6), ("l", 3), ("m", 4), ("n", 2),
   ("o", 1), ("p", 4), ("q", 8), ("r", 2), ("s", 2), ("t", 2), ("u", 4),
   ("v", 5), ("w", 5), ("x", 7), ("y", 4), ("z", 8)]

/-- Per-letter bag frequencies (`LETTER_COUNTS`, keyed by lowercase letter). -/
def LETTER_COUNTS : List (String × Int) :=
  [("a", 9), ("b", 2), ("c", 2), ("d", 4), ("e", 12), ("f", 2), ("g", 3),
   ("h", 2), ("i", 9), ("j", 1), ("k", 1), ("l", 4), ("m", 2), ("n", 6),
   ("o", 8), ("p", 2), ("q", 1), ("r", 6), ("s", 4), ("t", 6), ("u", 4),
   ("v", 2), ("w", 2), ("x", 1), ("y", 2), ("z", 1)]

/-- The static alphabet string `LETTERS`. -/
def LETTERS : String := "ABCDEFGHIJKLMNOPQRSTUVWXYZ"

/-- The vowels string `VOWELS`. -/
def VOWELS : String := "AEIOU"

def BOARD_COLS : Nat := 5

def BOARD_ROWS : Nat := 5

def DEFAULT_ROUND_COUNT : Nat := 5

def LONG_WORD_THRESHOLD : Nat := 6

def LONG_WORD_BONUS : Int := 10

/-- Modelled from the spec: the `MIN_VOWELS` constant is imported from a
`shared/constants` module whose copy in the repository does not define it;
the spec gives the minimum-vowel target as "target constant, e.g. 7". -/
def MIN_VOWELS : Nat := 7

/-- Modelled from the spec: the `GEM_TARGET` constant is imported from a
`shared/constants` module whose copy in the repository does not define it;
the spec gives the gem quota as "target constant, e.g. 10". -/
def GEM_TARGET : Nat := 10

/-! ### Data model (`shared/gameTypes.ts`, `server/types.ts`) -/

inductive Multiplier where
  | none
  | doubleLetter
  | tripleLetter
deriving DecidableEq, Repr

inductive WordMultiplier where
  | none
  | doubleWord
deriving DecidableEq, Repr

structure TileModel where
  id : String
  x : Int
  y : Int
  letter : String
  hasGem : Bool
  multiplier : Multiplier
  wordMultiplier : WordMultiplier
deriving DecidableEq, Repr

structure LastSubmission where
  playerId : String
  playerName : String
  word : String
  points : Int
  gems : Nat
  longWordBonus : Bool
deriving DecidableEq, Repr

structure GameState where
  cols : Nat
  rows : Nat
  tiles : List TileModel
  round : Nat
  totalRounds : Nat
  currentPlayerIndex : Nat
  turnStartedAt : Nat
  multipliersEnabled : Bool
  wordMultiplierEnabled : Bool
  roundWordTileId : Option String
  swapModePlayerId : Option String
  lastSubmission : Option LastSubmission
  completed : Bool
  winnerId : Option String
  log : List String
deriving DecidableEq, Repr

structure Player where
  id : String
  name : String
  isHost : Bool
  score : Int
  gems : Int
  joinedAt : Nat
  connected : Bool
  isSpectator : Bool
deriving DecidableEq, Repr

inductive RoomStatus where
  | lobby
  | inProgress
deriving DecidableEq, Repr

structure Room where
  id : String
  createdAt : Nat
  hostId : String
  players : List Player
  status : RoomStatus
  rounds : Option Nat
  game : Option GameState
deriving DecidableEq, Repr

/-- Result type of `submitWord` (`SubmitResult`). -/
structure SubmitPayload where
  word : String
  points : Int
  gems : Nat
  longWordBonus : Bool
deriving DecidableEq, Repr

structure SubmitResult where
  success : Bool
  error : Option String
  payload : Option SubmitPayload
deriving DecidableEq, Repr

/-- Result type of the power-up operations (`ActionResult`). -/
structure ActionResult where
  success : Bool
  error : Option String
deriving DecidableEq, Repr

/-! ### List helpers modelling in-place JS array mutation -/

/-- Swap the entries at positions `i` and `j` (identity when out of range):
`[items[i], items[j]] = [items[j], items[i]]`. -/
def listSwap {α : Type} (l : List α) (i j : Nat) : List α :=
  match l.get? i, l.get? j with
  | Option.some a, Option.some b => (l.set i b).set j a
  | _, _ => l

/-- Apply `f` to the element at position `i` (identity when out of range). -/
def listModify {α : Type} (l : List α) (i : Nat) (f : α → α) : List α :=
  match l.get? i with
  | Option.some a => l.set i (f a)
  | Option.none => l

/-- Fisher–Yates inner loop: the source iterates
`for (i = len-1; i > 0; i--) { j = floor(random()*(i+1)); swap i j }`. -/
def fisherYatesGo {α : Type} : Nat → List α → Rng → List α × Rng
  | 0, l, rng => (l, rng)
  | i + 1, l, rng =>
    let (j, rng') := rng.below (i + 2)
    fisherYatesGo i (listSwap l (i + 1) j) rng'

/-- `shuffleArray`: unbiased in-place Fisher–Yates shuffle. -/
def shuffleArray {α : Type} (l : List α) (rng : Rng) : List α × Rng :=
  fisherYatesGo (l.length - 1) l rng

/-! ### Letter bag (`buildLetterBag`, `consumeLetterFromBag`, ...) -/

/-- `normalizeLetterKey`: `(letter ?? "").trim().charAt(0).toUpperCase()`. -/
def normalizeLetterKey (letter : String) : String :=
  jsToUpper (jsCharAt0 (jsTrim letter))

/-- `buildLetterBag`: fresh bag seeded from `LETTER_COUNTS`
(`bag.set(letter.toUpperCase(), Math.max(0, count ?? 0))`). -/
def buildLetterBag : Bag :=
  LETTER_COUNTS.foldl (fun b e => mapSet b (jsToUpper e.1) (max 0 e.2)) []

/-- `consumeLetterFromBag`: decrement the normalized key when positive. -/
def consumeLetterFromBag (bag : Bag) (letter : String) : Bag × Bool :=
  let key := normalizeLetterKey letter
  match mapGet bag key with
  | Option.none => (bag, false)
  | Option.some current =>
    if current ≤ 0 then (bag, false) else (mapSet bag key (current - 1), true)

/-- `returnLetterToBag`: increment the normalized key (no-op on empty key). -/
def returnLetterToBag (bag : Bag) (letter : String) : Bag :=
  let key := normalizeLetterKey letter
  if key = "" then bag
  else mapSet bag key ((mapGet bag key).getD 0 + 1)

/-- The `i`-th letter of `LETTERS` as a one-character string. -/
def letterAt (i : Nat) : String :=
  match LETTERS.data.get? i with
  | Option.some c => String.mk [c]
  | Option.none => ""

/-- `randomLetter`: uniform draw from the static alphabet. -/
def randomLetter (rng : Rng) : String × Rng :=
  let (i, rng') := rng.below LETTERS.data.length
  (letterAt i, rng')

/-- The `i`-th vowel of `VOWELS` as a one-character string. -/
def vowelAt (i : Nat) : String :=
  match VOWELS.data.get? i with
  | Option.some c => String.mk [c]
  | Option.none => ""

/-- `randomVowel`: uniform draw from the vowel string. -/
def randomVowel (rng : Rng) : String × Rng :=
  let (i, rng') := rng.below VOWELS.data.length
  (vowelAt i, rng')

/-- `isVowel`: `VOWELS.includes((letter ?? "").toUpperCase())` — note that JS
`includes` makes the empty string count as a vowel. -/
def isVowel (letter : String) : Bool :=
  jsIncludes VOWELS (jsToUpper letter)

/-- `normalizeLetter`: keep the trimmed uppercased first character when
`LETTERS.includes` accepts it (which it does for `""`), otherwise draw a
random letter. -/
def normalizeLetter (letter : String) (rng : Rng) : String × Rng :=
  let upper := jsToUpper (jsCharAt0 (jsTrim letter))
  if jsIncludes LETTERS upper then (upper, rng) else randomLetter rng

/-- The weighted-draw loop body of `drawLetterFromBag`: walk the filtered
entries accumulating counts until the target falls inside an entry. -/
def drawLoop (bag : Bag) (t : Int) : Int → List (String × Int) → Option (String × Bag)
  | _, [] => Option.none
  | cumulative, (letter, count) :: rest =>
    let c' := cumulative + count
    if t < c' then Option.some (letter, (consumeLetterFromBag bag letter).1)
    else drawLoop bag t c' rest

/-- The positive-count entries of the bag passing the filter. -/
def bagFilteredEntries (bag : Bag) (filter : Option (String → Bool)) :
    List (String × Int) :=
  bag.filter (fun e =>
    if e.2 ≤ 0 then false
    else match filter with
      | Option.none => true
      | Option.some f => f e.1)

/-- The total remaining count over the filtered entries. -/
def bagFilteredTotal (bag : Bag) (filter : Option (String → Bool)) : Int :=
  (bagFilteredEntries bag filter).foldl (fun sum e => sum + e.2) 0

/-- `drawLetterFromBag(bag, filter?)`: weighted draw over positive-count
entries passing the filter; falls back to `randomLetter` leaving the bag
unchanged. -/
def drawLetterFromBag (bag : Bag) (filter : Option (String → Bool)) (rng : Rng) :
    (String × Bool) × Bag × Rng :=
  let entries := bagFilteredEntries bag filter
  let total : Int := bagFilteredTotal bag filter
  if 0 < total ∧ entries ≠ [] then
    let (tN, rng') := rng.below total.toNat
    match drawLoop bag (Int.ofNat tN) 0 entries with
    | Option.some (letter, bag') => ((letter, true), bag', rng')
    | Option.none =>
      let (l, rng'') := randomLetter rng'
      ((l, false), bag, rng'')
  else
    let (l, rng') := randomLetter rng
    ((l, false), bag, rng')

/-! ### Board helpers -/

/-- `tileId(x, y)`: the stable positional key `"x-y"`. -/
def tileId (x y : Nat) : String :=
  toString x ++ "-" ++ toString y

/-- The board coordinates in generation order (`y` outer, `x` inner). -/
def gridCoords : List (Nat × Nat) :=
  ((List.range BOARD_ROWS).map (fun y => (List.range BOARD_COLS).map (fun x => (x, y)))).flatten

/-- Indices of the tiles currently without a gem. -/
def gemlessIdxs (tiles : List TileModel) : List Nat :=
  (List.range tiles.length).filter (fun i =>
    match tiles.get? i with
    | Option.some t => !t.hasGem
    | Option.none => false)

/-- Indices of the tiles whose letter is not a vowel. -/
def nonVowelIdxs (tiles : List TileModel) : List Nat :=
  (List.range tiles.length).filter (fun i =>
    match tiles.get? i with
    | Option.some t => !(isVowel t.letter)
    | Option.none => false)

/-- `topUpGems`: add gems to random gem-less tiles up to the target quota. -/
def topUpGems (tiles : List TileModel) (target : Nat) (rng : Rng) :
    List TileModel × Rng :=
  if tiles.length = 0 then (tiles, rng) else
  let desired := min target tiles.length
  let current := tiles.countP (fun t => t.hasGem)
  if desired ≤ current then (tiles, rng) else
  let pool := gemlessIdxs tiles
  if pool = [] then (tiles, rng) else
  let (pool', rng') := shuffleArray pool rng
  let needed := min (desired - current) pool.length
  let chosen := pool'.take needed
  (chosen.foldl (fun ts i => listModify ts i (fun t => { t with hasGem := true })) tiles,
   rng')

/-- `assignRandomGems`: clear all gems, then top up to the target. -/
def assignRandomGems (tiles : List TileModel) (target : Nat) (rng : Rng) :
    List TileModel × Rng :=
  topUpGems (tiles.map (fun t => if t.hasGem then { t with hasGem := false } else t))
    target rng

/-- One iteration of the bag-backed branch of `ensureMinimumVowels`: return
the tile's letter to the bag and redraw it vowel-filtered. -/
def vowelRedrawStep (st : List TileModel × Bag × Rng) (i : Nat) :
    List TileModel × Bag × Rng :=
  let (tiles, bag, rng) := st
  match tiles.get? i with
  | Option.none => (tiles, bag, rng)
  | Option.some t =>
    let bag1 := returnLetterToBag bag t.letter
    let (res, bag2, rng') := drawLetterFromBag bag1 (Option.some isVowel) rng
    (tiles.set i { t with letter := res.1 }, bag2, rng')

/-- One iteration of the bag-less branch of `ensureMinimumVowels`. -/
def vowelRandomStep (st : List TileModel × Rng) (i : Nat) : List TileModel × Rng :=
  let (tiles, rng) := st
  match tiles.get? i with
  | Option.none => (tiles, rng)
  | Option.some t =>
    let (v, rng') := randomVowel rng
    (tiles.set i { t with letter := v }, rng')

/-- `ensureMinimumVowels(tiles, target, bag?)`: force-redraw random non-vowel
tiles into vowels until the target is met. -/
def ensureMinimumVowels (tiles : List TileModel) (target : Nat) (bagOpt : Option Bag)
    (rng : Rng) : List TileModel × Option Bag × Rng :=
  if tiles.length = 0 then (tiles, bagOpt, rng) else
  let desired := min target tiles.length
  let current := tiles.countP (fun t => isVowel t.letter)
  if desired ≤ current then (tiles, bagOpt, rng) else
  let pool := nonVowelIdxs tiles
  if pool = [] then (tiles, bagOpt, rng) else
  let (pool', rng') := shuffleArray pool rng
  let needed := min (desired - current) pool.length
  let chosen := pool'.take needed
  match bagOpt with
  | Option.some bag =>
    let (tiles', bag', rng'') := chosen.foldl vowelRedrawStep (tiles, bag, rng')
    (tiles', Option.some bag', rng'')
  | Option.none =>
    let (tiles', rng'') := chosen.foldl vowelRandomStep (tiles, rng')
    (tiles', Option.none, rng'')

/-- `ensureLetterMultiplier`: when no tile carries a letter multiplier, put
`tripleLetter` (with fixed chance) or `doubleLetter` on one random tile. -/
def ensureLetterMultiplier (tiles : List TileModel) (rng : Rng) :
    List TileModel × Rng :=
  if tiles.any (fun t => decide (t.multiplier ≠ Multiplier.none)) then (tiles, rng) else
  let candidates := (List.range tiles.length).filter (fun i =>
    match tiles.get? i with
    | Option.some t => t.multiplier == Multiplier.none
    | Option.none => false)
  if candidates = [] then (tiles, rng) else
  let (k, rng') := rng.below candidates.length
  let (b, rng'') := rng'.chance
  match candidates.get? k with
  | Option.some i =>
    (listModify tiles i (fun t =>
      { t with multiplier :=
          if b then Multiplier.tripleLetter else Multiplier.doubleLetter }), rng'')
  | Option.none => (tiles, rng'')

/-- `applyRoundWordTile`: reapply the `doubleWord` flag so that exactly the
tiles matching a truthy `roundWordTileId` carry it. -/
def applyRoundWordTile (game : GameState) : GameState :=
  let targetId := if game.wordMultiplierEnabled then game.roundWordTileId else Option.none
  { game with tiles := game.tiles.map (fun t =>
      { t with wordMultiplier :=
          if strTruthy targetId && targetId == Option.some t.id then
            WordMultiplier.doubleWord
          else WordMultiplier.none }) }

/-- `selectRoundWordTile(game, forceNew)`: pick a (new, when forced) random
word-multiplier tile and reapply the flags. -/
def selectRoundWordTile (game : GameState) (forceNew : Bool) (rng : Rng) :
    GameState × Rng :=
  if !game.wordMultiplierEnabled then
    (applyRoundWordTile { game with roundWordTileId := Option.none }, rng)
  else if game.tiles = [] then (game, rng)
  else
    let base := game.tiles
    let candidates :=
      if forceNew && strTruthy game.roundWordTileId && decide (1 < base.length) then
        let f := base.filter (fun t => !(Option.some t.id == game.roundWordTileId))
        if f = [] then base else f
      else base
    let (k, rng') := rng.below candidates.length
    match candidates.get? k with
    | Option.some target =>
      (applyRoundWordTile { game with roundWordTileId := Option.some target.id }, rng')
    | Option.none => (game, rng')

/-- `ensureWordMultiplier`: keep an existing valid target, else pick one. -/
def ensureWordMultiplier (game : GameState) (rng : Rng) : GameState × Rng :=
  if !game.wordMultiplierEnabled then (game, rng)
  else
    let hasTarget := strTruthy game.roundWordTileId &&
      game.tiles.any (fun t => Option.some t.id == game.roundWordTileId)
    if hasTarget then (applyRoundWordTile game, rng)
    else selectRoundWordTile game true rng

/-- A `GameState` literal like the one `createTiles` builds just to call
`ensureWordMultiplier`. -/
def tempGameFor (tiles : List TileModel) : GameState :=
  { cols := BOARD_COLS, rows := BOARD_ROWS, tiles := tiles, round := 1,
    totalRounds := DEFAULT_ROUND_COUNT, currentPlayerIndex := 0, turnStartedAt := 0,
    multipliersEnabled := false, wordMultiplierEnabled := true,
    roundWordTileId := Option.none, swapModePlayerId := Option.none,
    lastSubmission := Option.none, completed := false, winnerId := Option.none,
    log := [] }

/-- The per-coordinate drawing loop of `createTiles`. -/
def createTilesGo : List (Nat × Nat) → Bag → Rng → List TileModel × Bag × Rng
  | [], bag, rng => ([], bag, rng)
  | (x, y) :: rest, bag, rng =>
    let (res, bag', rng') := drawLetterFromBag bag Option.none rng
    let tile : TileModel :=
      { id := tileId x y, x := Int.ofNat x, y := Int.ofNat y, letter := res.1,
        hasGem := false, multiplier := Multiplier.none,
        wordMultiplier := WordMultiplier.none }
    let (restTiles, bag'', rng'') := createTilesGo rest bag' rng'
    (tile :: restTiles, bag'', rng'')

/-- `createTiles`: draw the 25 tiles from a fresh bag, assign gems, ensure
minimum vowels, and optionally place the multipliers. -/
def createTiles (multipliersEnabled wordMultiplierEnabled : Bool) (rng : Rng) :
    List TileModel × Rng :=
  let bag := buildLetterBag
  let (tiles0, bag1, rng1) := createTilesGo gridCoords bag rng
  let (tiles1, rng2) := assignRandomGems tiles0 GEM_TARGET rng1
  let (tiles2, _bagOpt, rng3) := ensureMinimumVowels tiles1 MIN_VOWELS (Option.some bag1) rng2
  let (tiles3, rng4) :=
    if multipliersEnabled then ensureLetterMultiplier tiles2 rng3 else (tiles2, rng3)
  if wordMultiplierEnabled then
    let (g, rng5) := ensureWordMultiplier (tempGameFor tiles3) rng4
    (g.tiles, rng5)
  else (tiles3, rng4)

/-- Point value of a tile letter: `LETTER_VALUES[tile.letter.toLowerCase()] ?? 0`. -/
def letterValue (letter : String) : Int :=
  (mapGet LETTER_VALUES (jsToLower letter)).getD 0

/-- `calculateWordScore`: letter values with letter multipliers, doubled by a
selected `doubleWord` tile, plus the flat long-word bonus. -/
def calculateWordScore (tiles : List TileModel) (hasLongWordBonus : Bool) : Int :=
  let baseScore := tiles.foldl (fun total t =>
    let m : Int :=
      match t.multiplier with
      | Multiplier.tripleLetter => 3
      | Multiplier.doubleLetter => 2
      | Multiplier.none => 1
    total + letterValue t.letter * m) 0
  let hasDoubleWord := tiles.any (fun t => t.wordMultiplier == WordMultiplier.doubleWord)
  let total := if hasDoubleWord then baseScore * 2 else baseScore
  total + (if hasLongWordBonus then LONG_WORD_BONUS else 0)

/-- The tail loop of `isValidSelection`, carrying the previous tile and the
seen-id set. -/
def isValidSelectionGo : TileModel → List String → List TileModel → Bool
  | _, _, [] => true
  | prev, seen, t :: rest =>
    if seen.contains t.id then false
    else
      let dx := (prev.x - t.x).natAbs
      let dy := (prev.y - t.y).natAbs
      if 1 < dx || 1 < dy || (dx == 0 && dy == 0) then false
      else isValidSelectionGo t (t.id :: seen) rest

/-- `isValidSelection`: distinct tiles forming an 8-adjacent chain. -/
def isValidSelection : List TileModel → Bool
  | [] => true
  | t :: rest => isValidSelectionGo t [t.id] rest

/-- Update the first tile with the given id (JS mutation through `find`). -/
def updateFirstById (tiles : List TileModel) (id : String) (f : TileModel → TileModel) :
    List TileModel :=
  match tiles.findIdx? (fun t => t.id == id) with
  | Option.some i => listModify tiles i f
  | Option.none => tiles

/-! ### Room-level engine operations -/

def failS (msg : String) : SubmitResult :=
  { success := false, error := Option.some msg, payload := Option.none }

def failA (msg : String) : ActionResult :=
  { success := false, error := Option.some msg }

def okA : ActionResult :=
  { success := true, error := Option.none }

def getActivePlayers (room : Room) : List Player :=
  room.players.filter (fun p => !p.isSpectator)

def hasActivePlayers (room : Room) : Bool :=
  room.players.any (fun p => !p.isSpectator)

def findFirstActiveIndex (room : Room) : Option Nat :=
  room.players.findIdx? (fun p => !p.isSpectator)

/-- `getCurrentTurnPlayer`: resolves the current-turn player, repairing a
stale `currentPlayerIndex` (out of range or pointing at a spectator) in
place. -/
def getCurrentTurnPlayer (room : Room) : Room × Option Player :=
  match room.game with
  | Option.none => (room, Option.none)
  | Option.some game =>
    if !(hasActivePlayers room) then (room, Option.none)
    else if room.players.length = 0 then (room, Option.none)
    else
      let needsRepair := decide (room.players.length ≤ game.currentPlayerIndex) ||
        (match room.players.get? game.currentPlayerIndex with
         | Option.some p => p.isSpectator
         | Option.none => false)
      if needsRepair then
        match findFirstActiveIndex room with
        | Option.none => (room, Option.none)
        | Option.some firstActive =>
          ({ room with game := Option.some { game with currentPlayerIndex := firstActive } },
           room.players.get? firstActive)
      else (room, room.players.get? game.currentPlayerIndex)

/-- `getNextActiveIndex`: cyclic search for the next non-spectator index,
reporting whether the search wrapped. -/
def getNextActiveIndex (room : Room) (currentIndex : Nat) : Nat × Bool :=
  let total := room.players.length
  if total = 0 || !(hasActivePlayers room) then (currentIndex, false)
  else
    match (List.range total).find? (fun k =>
      match room.players.get? ((currentIndex + 1 + k) % total) with
      | Option.some p => !p.isSpectator
      | Option.none => false) with
    | Option.some k =>
      let idx := (currentIndex + 1 + k) % total
      (idx, decide (idx ≤ currentIndex))
    | Option.none => (currentIndex, true)

/-- `determineWinner`: highest score among active players (stable: earliest
wins ties), falling back to all players. -/
def determineWinner (room : Room) : Room :=
  let candidates := getActivePlayers room
  let pool := if candidates.length ≠ 0 then candidates else room.players
  let top := pool.foldl (fun best p =>
    match best with
    | Option.none => Option.some p
    | Option.some b => if b.score < p.score then Option.some p else Option.some b)
    Option.none
  match room.game with
  | Option.some game =>
    { room with game := Option.some { game with winnerId := top.map (fun p => p.id) } }
  | Option.none => room

/-- `addLogEntry`: append, keeping at most the 50 most recent entries. -/
def addLogEntry (game : GameState) (message : String) : GameState :=
  let lg := game.log ++ [message]
  { game with log := if 50 < lg.length then lg.drop 1 else lg }

/-- `assignMultipliers`: re-ensure the letter multiplier when enabled. -/
def assignMultipliers (game : GameState) (rng : Rng) : GameState × Rng :=
  if game.multipliersEnabled then
    let (t, r) := ensureLetterMultiplier game.tiles rng
    ({ game with tiles := t }, r)
  else (game, rng)

/-- `advanceRound`: bump the round with its multiplier transitions, or finish
the game and determine the winner. -/
def advanceRound (room : Room) (now : Nat) (rng : Rng) : Room × Rng :=
  match room.game with
  | Option.none => (room, rng)
  | Option.some game =>
    if game.round < game.totalRounds then
      let game2 := { game with
        round := game.round + 1,
        multipliersEnabled := decide (1 < game.round + 1),
        wordMultiplierEnabled := decide (2 ≤ game.round + 1) }
      let (game3, rng1) := assignMultipliers game2 rng
      let game4 :=
        if !game3.wordMultiplierEnabled then { game3 with roundWordTileId := Option.none }
        else game3
      let (game5, rng2) :=
        if game4.wordMultiplierEnabled then selectRoundWordTile game4 true rng1
        else (applyRoundWordTile game4, rng1)
      let (tiles', _b, rng3) := ensureMinimumVowels game5.tiles MIN_VOWELS Option.none rng2
      let game6 := { game5 with tiles := tiles', turnStartedAt := now }
      ({ room with game := Option.some game6 }, rng3)
    else
      (determineWinner { room with game := Option.some { game with completed := true } }, rng)

/-- `advanceTurn`: move to the next active player; a wrap advances the round. -/
def advanceTurn (room : Room) (now : Nat) (rng : Rng) : Room × Rng :=
  match room.game with
  | Option.none => (room, rng)
  | Option.some game =>
    if !(hasActivePlayers room) then (room, rng)
    else
      let (index, wrapped) := getNextActiveIndex room game.currentPlayerIndex
      let game' := { game with currentPlayerIndex := index, turnStartedAt := now }
      let room' := { room with game := Option.some game' }
      if wrapped then advanceRound room' now rng else (room', rng)

/-- `createInitialGameState`. -/
def createInitialGameState (totalRounds : Nat) (now : Nat) (rng : Rng) :
    GameState × Rng :=
  let (tiles, rng') := createTiles false false rng
  ({ cols := BOARD_COLS, rows := BOARD_ROWS, tiles := tiles, round := 1,
     totalRounds := totalRounds, currentPlayerIndex := 0, turnStartedAt := now,
     multipliersEnabled := false, wordMultiplierEnabled := false,
     roundWordTileId := Option.none, swapModePlayerId := Option.none,
     lastSubmission := Option.none, completed := false, winnerId := Option.none,
     log := [] }, rng')

/-- `refreshTiles`: redraw only the just-submitted tiles from a reconstructed
bag, restore the gem quota board-wide, reapply the word-multiplier flag, and
top up vowels scoped to the submitted tiles. -/
def refreshTiles (game : GameState) (selIds : List String) (rng : Rng) :
    GameState × Rng :=
  let bag0 := buildLetterBag
  let bag1 := game.tiles.foldl (fun b t =>
    if selIds.contains t.id then b else (consumeLetterFromBag b t.letter).1) bag0
  let st := selIds.foldl (fun (acc : List TileModel × Bag × Rng) id =>
      let (ts, b, r) := acc
      let (res, b', r') := drawLetterFromBag b Option.none r
      (updateFirstById ts id (fun t =>
        { t with letter := res.1, hasGem := false, multiplier := Multiplier.none }),
       b', r'))
    (game.tiles, bag1, rng)
  let (tiles1, bag2, rng1) := st
  let (tiles2, rng2) := topUpGems tiles1 GEM_TARGET rng1
  let game1 := applyRoundWordTile { game with tiles := tiles2 }
  let currentVowels := game1.tiles.countP (fun t => isVowel t.letter)
  let missing := MIN_VOWELS - currentVowels
  if missing = 0 then (game1, rng2)
  else
    let sub := selIds.filterMap (fun id => game1.tiles.find? (fun t => t.id == id))
    let (sub', _b, rng3) :=
      ensureMinimumVowels sub (min missing selIds.length) (Option.some bag2) rng2
    let tiles3 := (selIds.zip sub').foldl
      (fun ts pr => updateFirstById ts pr.1 (fun _ => pr.2)) game1.tiles
    ({ game1 with tiles := tiles3 }, rng3)

/-- The committed tail of a successful `submitWord`: apply score and gems,
refresh the submitted tiles, reassign multipliers, record the submission and
log entry, and advance the turn. -/
def submitWordCommit (room1 : Room) (player : Player) (game : GameState)
    (tileIds : List String) (typedTiles : List TileModel) (word : String)
    (now : Nat) (rng : Rng) : Room × SubmitResult × Rng :=
  let longWordBonus := decide (LONG_WORD_THRESHOLD ≤ word.length)
  let points := calculateWordScore typedTiles longWordBonus
  let gems := (typedTiles.filter (fun t => t.hasGem)).length
  let players' := listModify room1.players game.currentPlayerIndex
    (fun p => { p with score := p.score + points,
                       gems := p.gems + Int.ofNat gems })
  let room2 := { room1 with players := players' }
  let (game1, rng1) := refreshTiles game tileIds rng
  let (game2, rng2) := assignMultipliers game1 rng1
  let submission : LastSubmission :=
    { playerId := player.id, playerName := player.name,
      word := jsToUpper word, points := points, gems := gems,
      longWordBonus := longWordBonus }
  let game3 := addLogEntry
    { game2 with lastSubmission := Option.some submission }
    ("Round " ++ toString game2.round ++ ": " ++ submission.playerName ++
     " scored " ++ toString submission.points ++ " pts" ++
     (if submission.gems ≠ 0 then
        " and " ++ toString submission.gems ++ " gem(s)"
      else "") ++
     " with " ++ submission.word ++ ".")
  let room3 := { room2 with game := Option.some game3 }
  let (room4, rng3) := advanceTurn room3 now rng2
  (room4,
   { success := true, error := Option.none,
     payload := Option.some
       { word := jsToUpper word, points := points, gems := gems,
         longWordBonus := longWordBonus } }, rng3)

/-- `submitWord`. -/
def submitWord (room : Room) (playerId : String) (tileIds : List String)
    (dict : String → Bool) (now : Nat) (rng : Rng) : Room × SubmitResult × Rng :=
  match room.game with
  | Option.none => (room, failS "Game not started.", rng)
  | Option.some game0 =>
    if game0.completed then (room, failS "Game already completed.", rng)
    else if tileIds = [] then (room, failS "Select tiles to form a word.", rng)
    else
      let (room1, playerOpt) := getCurrentTurnPlayer room
      match playerOpt with
      | Option.none => (room1, failS "No active players available.", rng)
      | Option.some player =>
        if player.id ≠ playerId then (room1, failS "It is not your turn.", rng)
        else
          match room1.game with
          | Option.none => (room1, failS "Game not started.", rng)
          | Option.some game =>
            let tilesOpt := tileIds.map (fun id => game.tiles.find? (fun t => t.id == id))
            if tilesOpt.any (fun o => o.isNone) then
              (room1, failS "Invalid tile selection.", rng)
            else
              let typedTiles := tilesOpt.filterMap (fun o => o)
              if !(isValidSelection typedTiles) then
                (room1, failS "Tiles must be unique and touch the previous tile.", rng)
              else
                let word := (typedTiles.map (fun t => t.letter)).foldl (fun a b => a ++ b) ""
                if !(dict (jsToUpper word)) then
                  (room1, failS ("\"" ++ word ++ "\" is not a valid word."), rng)
                else submitWordCommit room1 player game tileIds typedTiles word now rng

/-- The board part of `shuffleBoard`: permute the tile contents, keep
`roundWordTileId` stable (picking one only when it is missing while the word
multiplier is enabled), and reapply the `doubleWord` flag. -/
def shuffleTiles (game : GameState) (rng : Rng) : GameState × Rng :=
  let payload := game.tiles.map (fun t =>
    (t.letter, t.multiplier, t.hasGem, t.wordMultiplier))
  let (payload', rng1) := shuffleArray payload rng
  let tiles1 := (game.tiles.zip payload').map (fun pr =>
    { pr.1 with letter := pr.2.1, multiplier := pr.2.2.1,
                hasGem := pr.2.2.2.1, wordMultiplier := pr.2.2.2.2 })
  let game1 := { game with tiles := tiles1 }
  let (game2, rng2) :=
    if game1.wordMultiplierEnabled && !(strTruthy game1.roundWordTileId) &&
       decide (game1.tiles.length ≠ 0) then
      let (k, rng') := rng1.below game1.tiles.length
      match game1.tiles.get? k with
      | Option.some random =>
        ({ game1 with roundWordTileId := Option.some random.id }, rng')
      | Option.none => ({ game1 with roundWordTileId := Option.none }, rng')
    else (game1, rng1)
  (applyRoundWordTile game2, rng2)

/-- `shuffleBoard`: 1 gem; permutes tile contents, keeps `roundWordTileId`
stable (picking one only when missing and enabled), reapplies the flag. -/
def shuffleBoard (room : Room) (playerId : String) (rng : Rng) :
    Room × ActionResult × Rng :=
  match room.game with
  | Option.none => (room, failA "Game not started.", rng)
  | Option.some game =>
    match room.players.findIdx? (fun p => p.id == playerId) with
    | Option.none => (room, failA "Player not found.", rng)
    | Option.some pi =>
      match room.players.get? pi with
      | Option.none => (room, failA "Player not found.", rng)
      | Option.some player =>
        if player.isSpectator then (room, failA "Spectators cannot use Shuffle.", rng)
        else if player.gems < 1 then (room, failA "Need 1 gem to shuffle.", rng)
        else
          let players' := room.players.set pi { player with gems := player.gems - 1 }
          let (game3, rng2) := shuffleTiles game rng
          ({ room with players := players', game := Option.some game3 }, okA, rng2)

/-- `requestSwapMode`: 3 gems required; arms swap mode for the player. -/
def requestSwapMode (room : Room) (playerId : String) : Room × ActionResult :=
  match room.game with
  | Option.none => (room, failA "Game not started.")
  | Option.some game =>
    match room.players.find? (fun p => p.id == playerId) with
    | Option.none => (room, failA "Player not found.")
    | Option.some player =>
      if player.isSpectator then (room, failA "Spectators cannot swap letters.")
      else if player.gems < 3 then (room, failA "Need 3 gems to swap a letter.")
      else
        let game' := { game with swapModePlayerId := Option.some playerId }
        ({ room with game := Option.some game' }, okA)

/-- The multiplier snapshot lookup: a JS `Map` built by successive `set`
calls, so the last write for an id wins. -/
def snapshotGet (snap : List (String × Multiplier)) (k : String) : Option Multiplier :=
  (snap.reverse.find? (fun e => e.1 == k)).map (fun e => e.2)

/-- `applySwap`: validates the pending swap, deducts 3 gems, sets the
normalized letter, and restores every tile's multiplier from the snapshot. -/
def applySwap (room : Room) (playerId tileIdArg letter : String) (rng : Rng) :
    Room × ActionResult × Rng :=
  match room.game with
  | Option.none => (room, failA "Game not started.", rng)
  | Option.some game =>
    match room.players.findIdx? (fun p => p.id == playerId) with
    | Option.none => (room, failA "Player not found.", rng)
    | Option.some pi =>
      match room.players.get? pi with
      | Option.none => (room, failA "Player not found.", rng)
      | Option.some player =>
        if player.isSpectator then (room, failA "Spectators cannot swap letters.", rng)
        else if game.swapModePlayerId ≠ Option.some playerId then
          (room, failA "You are not swapping a letter.", rng)
        else if player.gems < 3 then (room, failA "You do not have enough gems.", rng)
        else
          let snapshot := game.tiles.map (fun t => (t.id, t.multiplier))
          match game.tiles.findIdx? (fun t => t.id == tileIdArg) with
          | Option.none => (room, failA "Tile not found.", rng)
          | Option.some ti =>
            let players' := room.players.set pi { player with gems := player.gems - 3 }
            let (newLetter, rng1) := normalizeLetter letter rng
            let tiles1 := listModify game.tiles ti (fun t => { t with letter := newLetter })
            let tiles2 := tiles1.map (fun t =>
              { t with multiplier := (snapshotGet snapshot t.id).getD Multiplier.none })
            let game' := { game with tiles := tiles2, swapModePlayerId := Option.none }
            ({ room with players := players', game := Option.some game' }, okA, rng1)

/-! ### Socket-handler turn gate (transport layer, `server.ts` part 1) -/

/-- `ensurePlayerTurn`: the handler-side turn check; also repairs a stale
`currentPlayerIndex` in place. -/
def ensurePlayerTurn (room : Room) (playerId : String) : Room × Bool :=
  match room.game with
  | Option.none => (room, false)
  | Option.some game =>
    if room.players.length = 0 then (room, false)
    else if !(hasActivePlayers room) then (room, false)
    else
      let needsRepair := decide (room.players.length ≤ game.currentPlayerIndex) ||
        (match room.players.get? game.currentPlayerIndex with
         | Option.some p => p.isSpectator
         | Option.none => false)
      if needsRepair then
        match findFirstActiveIndex room with
        | Option.none => (room, false)
        | Option.some fa =>
          ({ room with game := Option.some { game with currentPlayerIndex := fa } },
           match room.players.get? fa with
           | Option.some p => p.id == playerId
           | Option.none => false)
      else
        (room,
         match room.players.get? game.currentPlayerIndex with
         | Option.some p => p.id == playerId
         | Option.none => false)

/-- The `game:shuffle` socket handler: turn gate, engine call, log entry. -/
def handleShuffle (room : Room) (playerId : String) (rng : Rng) :
    Room × ActionResult × Rng :=
  let (room1, ok) := ensurePlayerTurn room playerId
  if !ok then (room1, failA "It is not your turn.", rng)
  else
    let (room2, res, rng2) := shuffleBoard room1 playerId rng
    if res.success then
      match room2.game, room2.players.find? (fun p => p.id == playerId) with
      | Option.some g, Option.some p =>
        ({ room2 with game := Option.some (addLogEntry g
            ("Round " ++ toString g.round ++ ": " ++ p.name ++
             " used Shuffle (-1 gem).")) }, res, rng2)
      | _, _ => (room2, res, rng2)
    else (room2, res, rng2)

/-- The `game:swap:start` socket handler: turn gate then engine call. -/
def handleSwapStart (room : Room) (playerId : String) : Room × ActionResult :=
  let (room1, ok) := ensurePlayerTurn room playerId
  if !ok then (room1, failA "It is not your turn.")
  else requestSwapMode room1 playerId

/-! ### Specification-side definitions (written from the claim texts, for
refinement comparisons) -/

/-- The concatenated word of a selection: `tiles.map(t => t.letter).join("")`. -/
def wordOfTiles (tiles : List TileModel) : String :=
  (tiles.map (fun t => t.letter)).foldl (fun a b => a ++ b) ""

/-- Spec-side scoring formula, following the claim text: sum over the selected
tiles of base letter value times 3 for `tripleLetter` / 2 for `doubleLetter` /
1 otherwise, doubled when any selected tile carries `doubleWord`, plus a flat
bonus of 10 (not doubled) when the word length is at least 6. -/
def specWordScore (tiles : List TileModel) : Int :=
  let base := (tiles.map (fun t =>
    letterValue t.letter *
      (match t.multiplier with
       | Multiplier.tripleLetter => (3 : Int)
       | Multiplier.doubleLetter => 2
       | Multiplier.none => 1))).sum
  let doubled :=
    if tiles.any (fun t => t.wordMultiplier == WordMultiplier.doubleWord) then 2 * base
    else base
  doubled + (if 6 ≤ (wordOfTiles tiles).length then 10 else 0)

/-- The stable skeleton of a tile: id, position, letter and gem — the fields
a round advance must not touch. -/
def tileSkel (t : TileModel) : String × Int × Int × String × Bool :=
  (t.id, t.x, t.y, t.letter, t.hasGem)

/-- The content triple of a tile, as quantified over by the shuffle claim. -/
def tileTriple (t : TileModel) : String × Bool × Multiplier :=
  (t.letter, t.hasGem, t.multiplier)

/-- Chebyshev adjacency (8-directional, excluding self), from the claim. -/
def chebAdjacent (a b : TileModel) : Prop :=
  max (a.x - b.x).natAbs (a.y - b.y).natAbs = 1

/-- The tiles a selection resolves to, in selection order. -/
def resolveTiles (g : GameState) (tileIds : List String) : List TileModel :=
  tileIds.filterMap (fun id => g.tiles.find? (fun t => t.id == id))

/-- The concatenated word of a resolved selection. -/
def selWord (g : GameState) (tileIds : List String) : String :=
  ((resolveTiles g tileIds).map (fun t => t.letter)).foldl (fun a b => a ++ b) ""

/-! ### Concrete instances used by witnesses and counterexamples -/

def mkTile (id : String) (x y : Int) (letter : String) (gem : Bool)
    (m : Multiplier) (w : WordMultiplier) : TileModel :=
  { id := id, x := x, y := y, letter := letter, hasGem := gem, multiplier := m,
    wordMultiplier := w }

/-- The CAT example from the spec: C on a double-letter tile, A flagged as the
double-word tile, T plain. -/
def catTiles : List TileModel :=
  [mkTile "0-0" 0 0 "C" false Multiplier.doubleLetter WordMultiplier.none,
   mkTile "1-0" 1 0 "A" false Multiplier.none WordMultiplier.doubleWord,
   mkTile "2-0" 2 0 "T" false Multiplier.none WordMultiplier.none]

/-- A deterministic stream for concrete runs. -/
def constRng (k : Nat) : Rng := { stream := fun _ => k, pos := 0 }

def wAlice : Player :=
  { id := "p1", name := "Alice", isHost := true, score := 0, gems := 3,
    joinedAt := 0, connected := true, isSpectator := false }

def wBob : Player :=
  { id := "p2", name := "Bob", isHost := false, score := 0, gems := 3,
    joinedAt := 0, connected := true, isSpectator := false }

def wEve : Player :=
  { id := "s1", name := "Eve", isHost := false, score := 0, gems := 3,
    joinedAt := 0, connected := true, isSpectator := true }

def baseRoom (players : List Player) (g : Option GameState) : Room :=
  { id := "ROOM", createdAt := 0, hostId := "p1", players := players,
    status := RoomStatus.inProgress, rounds := Option.none, game := g }

/-- A small active game with swap mode armed for `p1`. -/
def gameC1 : GameState :=
  { tempGameFor catTiles with swapModePlayerId := Option.some "p1" }

def roomC1 : Room := baseRoom [wAlice, wBob] (Option.some gameC1)

/-- A game whose board satisfies the minimum-vowel invariant and is mid-game. -/
def gameC3 : GameState :=
  { tempGameFor ((List.range 8).map (fun i =>
      mkTile (tileId i 0) (Int.ofNat i) 0 "A" false Multiplier.none WordMultiplier.none))
    with round := 2, totalRounds := 5, wordMultiplierEnabled := false }

def roomC3 : Room := baseRoom [wAlice] (Option.some gameC3)

/-- A game/room on which submitting "CAT" succeeds. -/
def gameC5 : GameState := tempGameFor catTiles

def roomC5 : Room := baseRoom [wAlice, wBob] (Option.some gameC5)

/-- A room whose stored `currentPlayerIndex` points at a spectator: the
stale-index situation `submitWord` repairs in place. -/
def roomC6 : Room := baseRoom [wEve, wBob] (Option.some (tempGameFor catTiles))

/-- A small active game where it is Alice's (`p1`, index 0) turn. -/
def gameC7 : GameState := tempGameFor catTiles

def roomC7 : Room := baseRoom [wAlice, wBob] (Option.some gameC7)

/-! ### Bag invariants (board-generation analysis) -/

/-- A string that is a single letter of the static alphabet. -/
def alphaStr (s : String) : Prop :=
  ∃ c ∈ LETTERS.data, s = String.mk [c]

/-- The total remaining vowel count of a bag. -/
def vowelTotal (bag : Bag) : Int :=
  ((bag.filter (fun e => isVowel e.1)).map Prod.snd).sum

/-- Well-formedness of a letter bag: alphabet-singleton keys, pairwise
distinct, with nonnegative counts. -/
def bagWF (bag : Bag) : Prop :=
  (∀ e ∈ bag, alphaStr e.1 ∧ 0 ≤ e.2) ∧ (bag.map Prod.fst).Nodup

instance : DecidablePred alphaStr := fun s =>
  decidable_of_iff (∃ c ∈ LETTERS.data, s = String.mk [c]) Iff.rfl

/-! ### Lemmas: shuffling is a permutation -/

theorem listSwap_perm {α : Type} (l : List α) (i j : Nat) : (listSwap l i j).Perm l := by
  classical
  unfold listSwap
  split
  case _ a b hi hj =>
    obtain ⟨hi', hia⟩ := List.get?_eq_some.mp hi
    obtain ⟨hj', hjb⟩ := List.get?_eq_some.mp hj
    simp only [List.get_eq_getElem] at hia hjb
    rw [List.perm_iff_count]
    intro x
    by_cases hij : i = j
    · subst hij
      have hba : b = a := by rw [← hia, ← hjb]
      subst hba
      rw [List.set_set]
      rw [List.count_set b x l i hi']
      rw [hia]
      by_cases hbx : b = x
      · subst hbx
        have hmem : 0 < List.count b l := List.count_pos_iff.mpr (hia ▸ List.getElem_mem hi')
        simp only [beq_self_eq_true, if_true]
        omega
      · simp [hbx]
    · rw [List.count_set a x _ j (by simpa using hj')]
      rw [List.count_set b x l i hi']
      rw [List.getElem_set_ne hij]
      rw [hjb, hia]
      by_cases hax : a = x
      · have hmem : 0 < List.count x l := by
          refine List.count_pos_iff.mpr ?_
          rw [← hax, ← hia]; exact List.getElem_mem hi'
        by_cases hbx : b = x <;> simp [hax, hbx] <;> omega
      · by_cases hbx : b = x <;> simp [hax, hbx]
  case _ => exact List.Perm.refl l

theorem fisherYatesGo_perm {α : Type} (n : Nat) (l : List α) (rng : Rng) :
    (fisherYatesGo n l rng).1.Perm l := by
  induction n generalizing l rng with
  | zero => exact List.Perm.refl l
  | succ i ih =>
    simp only [fisherYatesGo]
    exact (ih _ _).trans (listSwap_perm l (i + 1) _)

theorem shuffleArray_perm {α : Type} (l : List α) (rng : Rng) :
    (shuffleArray l rng).1.Perm l :=
  fisherYatesGo_perm (l.length - 1) l rng

theorem shuffleArray_length {α : Type} (l : List α) (rng : Rng) :
    (shuffleArray l rng).1.length = l.length :=
  (shuffleArray_perm l rng).length_eq

/-! ### Lemmas: indexed access through the mutation helpers -/

theorem listModify_get? {α : Type} (l : List α) (i : Nat) (f : α → α) (j : Nat) :
    (listModify l i f).get? j = if i = j then (l.get? j).map f else l.get? j := by
  cases hi : l.get? i with
  | none =>
    simp only [listModify, hi]
    split
    · next hij => subst hij; rw [hi]; rfl
    · rfl
  | some a =>
    simp only [listModify, hi]
    rw [List.get?_eq_getElem?] at hi
    obtain ⟨hlen, hval⟩ := List.getElem?_eq_some.mp hi
    simp only [List.get?_eq_getElem?, List.getElem?_set]
    split
    · next hij => subst hij; simp [hlen, hval]
    · rfl

theorem listModify_length {α : Type} (l : List α) (i : Nat) (f : α → α) :
    (listModify l i f).length = l.length := by
  unfold listModify
  cases hi : l.get? i with
  | none => rfl
  | some a => exact List.length_set l i (f a)

theorem find?_key_unique {β : Type} (ps : List (String × β)) (tid : String) (m : β)
    (hnd : (ps.map Prod.fst).Nodup) (hmem : (tid, m) ∈ ps) :
    ps.find? (fun e => e.1 == tid) = Option.some (tid, m) := by
  induction ps with
  | nil => cases hmem
  | cons hd tl ih =>
    simp only [List.map_cons, List.nodup_cons] at hnd
    rcases List.mem_cons.mp hmem with hmem' | hmem'
    · subst hmem'
      exact List.find?_cons_of_pos _ (by simp)
    · have hne : ¬(hd.1 == tid) = true := by
        intro hcontra
        have : tid ∈ tl.map Prod.fst :=
          List.mem_map.mpr ⟨(tid, m), hmem', rfl⟩
        exact hnd.1 ((beq_iff_eq.mp hcontra) ▸ this)
      have hstep : List.find? (fun e => e.1 == tid) (hd :: tl) =
          List.find? (fun e => e.1 == tid) tl := by
        rw [List.find?_cons]
        simp only [Bool.not_eq_true] at hne
        rw [hne]
      rw [hstep]
      exact ih hnd.2 hmem'

theorem snapshotGet_of_nodup (tiles : List TileModel)
    (hnd : (tiles.map TileModel.id).Nodup) (t : TileModel) (hmem : t ∈ tiles) :
    snapshotGet (tiles.map (fun u => (u.id, u.multiplier))) t.id =
      Option.some t.multiplier := by
  unfold snapshotGet
  have hmem' : (t.id, t.multiplier) ∈ (tiles.map (fun u => (u.id, u.multiplier))).reverse := by
    rw [List.mem_reverse]
    exact List.mem_map.mpr ⟨t, hmem, rfl⟩
  have hnd' : (((tiles.map (fun u => (u.id, u.multiplier))).reverse).map Prod.fst).Nodup := by
    rw [List.map_reverse, List.nodup_reverse, List.map_map]
    exact hnd
  rw [find?_key_unique _ _ _ hnd' hmem']
  rfl

/-! ### Claim C1 -/

/-- Claim C1: a successful `applySwap` (with pairwise-distinct tile ids as the
board invariant guarantees) leaves every tile's `multiplier` and
`wordMultiplier` equal to its pre-call value, leaves `roundWordTileId`
unchanged, and changes at most the swapped tile's `letter` (ids, positions
and gems are also untouched). -/
theorem C1_applySwap_frame (room : Room) (pid tid letter : String) (rng : Rng)
    (game : GameState) (hg : room.game = Option.some game)
    (hnd : (game.tiles.map TileModel.id).Nodup)
    (hs : ((applySwap room pid tid letter rng).2.1).success = true) :
    ∃ game', (applySwap room pid tid letter rng).1.game = Option.some game' ∧
      game'.roundWordTileId = game.roundWordTileId ∧
      game'.tiles.length = game.tiles.length ∧
      ∀ i t t', game.tiles.get? i = Option.some t →
        game'.tiles.get? i = Option.some t' →
        t'.multiplier = t.multiplier ∧ t'.wordMultiplier = t.wordMultiplier ∧
        t'.id = t.id ∧ t'.x = t.x ∧ t'.y = t.y ∧ t'.hasGem = t.hasGem ∧
        (t.id ≠ tid → t'.letter = t.letter) := by
  simp only [applySwap, hg] at hs ⊢
  cases hpi : room.players.findIdx? (fun p => p.id == pid) with
  | none => simp only [hpi, failA] at hs; exact Bool.noConfusion hs
  | some pi =>
    simp only [hpi] at hs ⊢
    cases hpl : room.players.get? pi with
    | none => simp only [hpl, failA] at hs; exact Bool.noConfusion hs
    | some player =>
      simp only [hpl] at hs ⊢
      by_cases hspec : player.isSpectator = true
      · simp only [if_pos hspec, failA] at hs; exact Bool.noConfusion hs
      · simp only [if_neg hspec] at hs ⊢
        by_cases hmode : game.swapModePlayerId ≠ Option.some pid
        · simp only [if_pos hmode, failA] at hs; exact Bool.noConfusion hs
        · simp only [if_neg hmode] at hs ⊢
          by_cases hgem : player.gems < 3
          · simp only [if_pos hgem, failA] at hs; exact Bool.noConfusion hs
          · simp only [if_neg hgem] at hs ⊢
            cases hti : game.tiles.findIdx? (fun t => t.id == tid) with
            | none => simp only [hti, failA] at hs; exact Bool.noConfusion hs
            | some ti =>
              simp only [hti]
              refine ⟨_, rfl, rfl, ?_, ?_⟩
              · rw [List.length_map, listModify_length]
              · intro i t t' ht ht'
                obtain ⟨hlt, htidp, _⟩ := List.findIdx?_eq_some_iff_getElem.mp hti
                have hmem : t ∈ game.tiles := by
                  rw [List.get?_eq_getElem?] at ht
                  obtain ⟨h1, h2⟩ := List.getElem?_eq_some.mp ht
                  exact h2 ▸ List.getElem_mem h1
                rw [List.get?_eq_getElem?, List.getElem?_map, ← List.get?_eq_getElem?,
                  listModify_get?] at ht'
                by_cases hij : ti = i
                · subst hij
                  rw [if_pos rfl, ht] at ht'
                  simp only [Option.map_some', Option.some.injEq] at ht'
                  have hid : t.id = tid := by
                    rw [List.get?_eq_getElem?] at ht
                    obtain ⟨h1, h2⟩ := List.getElem?_eq_some.mp ht
                    exact beq_iff_eq.mp (h2 ▸ htidp)
                  subst ht'
                  refine ⟨?_, rfl, rfl, rfl, rfl, rfl, ?_⟩
                  · show (snapshotGet _ t.id).getD Multiplier.none = t.multiplier
                    rw [snapshotGet_of_nodup game.tiles hnd t hmem]; rfl
                  · intro hne; exact absurd hid hne
                · rw [if_neg hij, ht] at ht'
                  simp only [Option.map_some', Option.some.injEq] at ht'
                  subst ht'
                  refine ⟨?_, rfl, rfl, rfl, rfl, rfl, fun _ => rfl⟩
                  show (snapshotGet _ t.id).getD Multiplier.none = t.multiplier
                  rw [snapshotGet_of_nodup game.tiles hnd t hmem]; rfl

/-- Witness for C1: the frame theorem applied to a concrete successful swap. -/
theorem C1_applySwap_frame_witness :
    ∃ game', (applySwap roomC1 "p1" "0-0" "Q" (constRng 0)).1.game = Option.some game' ∧
      game'.roundWordTileId = gameC1.roundWordTileId ∧
      game'.tiles.length = gameC1.tiles.length := by
  obtain ⟨g, h1, h2, h3, _⟩ :=
    C1_applySwap_frame roomC1 "p1" "0-0" "Q" (constRng 0) gameC1 rfl (by decide) (by decide)
  exact ⟨g, h1, h2, h3⟩

/-! ### Lemmas: shuffleTiles -/

theorem zip_map_snd_eq {α β γ : Type} (a : List α) (b : List β) (f : α × β → γ)
    (g : β → γ) (hfg : ∀ x y, f (x, y) = g y) (hlen : a.length = b.length) :
    (a.zip b).map f = b.map g := by
  induction a generalizing b with
  | nil =>
    cases b with
    | nil => rfl
    | cons hd tl => simp at hlen
  | cons hd tl ih =>
    cases b with
    | nil => simp at hlen
    | cons hd' tl' =>
      simp only [List.zip_cons_cons, List.map_cons, hfg]
      rw [ih tl' (by simpa using hlen)]

theorem zip_map_fst_eq {α β γ : Type} (a : List α) (b : List β) (f : α × β → γ)
    (g : α → γ) (hfg : ∀ x y, f (x, y) = g x) (hlen : a.length = b.length) :
    (a.zip b).map f = a.map g := by
  induction a generalizing b with
  | nil =>
    cases b with
    | nil => rfl
    | cons hd tl => simp at hlen
  | cons hd tl ih =>
    cases b with
    | nil => simp at hlen
    | cons hd' tl' =>
      simp only [List.zip_cons_cons, List.map_cons, hfg]
      rw [ih tl' (by simpa using hlen)]

theorem applyRoundWordTile_triple (g : GameState) :
    (applyRoundWordTile g).tiles.map tileTriple = g.tiles.map tileTriple := by
  simp only [applyRoundWordTile, List.map_map]
  rfl

theorem applyRoundWordTile_ids (g : GameState) :
    (applyRoundWordTile g).tiles.map TileModel.id = g.tiles.map TileModel.id := by
  simp only [applyRoundWordTile, List.map_map]
  rfl

theorem applyRoundWordTile_rwt (g : GameState) :
    (applyRoundWordTile g).roundWordTileId = g.roundWordTileId := rfl

theorem shuffleTiles_triple_perm (game : GameState) (rng : Rng) :
    ((shuffleTiles game rng).1.tiles.map tileTriple).Perm
      (game.tiles.map tileTriple) := by
  have hperm := shuffleArray_perm
    (game.tiles.map (fun t => (t.letter, t.multiplier, t.hasGem, t.wordMultiplier))) rng
  simp only [shuffleTiles]
  rcases hpl : shuffleArray
    (game.tiles.map (fun t => (t.letter, t.multiplier, t.hasGem, t.wordMultiplier))) rng
    with ⟨pl, rng1⟩
  simp only [hpl] at hperm ⊢
  have hlen : game.tiles.length = pl.length := by
    rw [hperm.length_eq, List.length_map]
  have htiles1 : (((game.tiles.zip pl).map (fun pr =>
      ({ pr.1 with
          letter := pr.2.1, multiplier := pr.2.2.1,
          hasGem := pr.2.2.2.1, wordMultiplier := pr.2.2.2.2 } : TileModel))).map tileTriple) =
      pl.map (fun q => (q.1, q.2.2.1, q.2.1)) := by
    rw [List.map_map]
    exact zip_map_snd_eq _ _ _ _ (fun x y => rfl) hlen
  have hbase : (pl.map (fun q => (q.1, q.2.2.1, q.2.1))).Perm
      (game.tiles.map tileTriple) := by
    have := hperm.map (fun q => (q.1, q.2.2.1, q.2.1))
    rw [List.map_map] at this
    exact this
  repeat' split
  all_goals rw [applyRoundWordTile_triple]
  all_goals dsimp only
  all_goals rw [htiles1]
  all_goals exact hbase

theorem strTruthy_some_of_ne (s : String) (h : s ≠ "") :
    strTruthy (Option.some s) = true := by
  simp only [strTruthy, bne_iff_ne]
  exact h

theorem Rng_below_lt (r : Rng) (n : Nat) (h : n ≠ 0) : (r.below n).1 < n := by
  simp only [Rng.below, Rng.next, if_neg h]
  exact Nat.mod_lt _ (Nat.pos_of_ne_zero h)

theorem applyRoundWordTile_flag (g : GameState)
    (hen : g.wordMultiplierEnabled = true)
    (hrw : ∀ s, g.roundWordTileId = Option.some s → s ≠ "") :
    ∀ t ∈ (applyRoundWordTile g).tiles,
      (t.wordMultiplier = WordMultiplier.doubleWord ↔
        (applyRoundWordTile g).roundWordTileId = Option.some t.id) := by
  intro t ht
  simp only [applyRoundWordTile, hen, if_true] at ht
  obtain ⟨t0, ht0, rfl⟩ := List.mem_map.mp ht
  show (if (strTruthy g.roundWordTileId && (g.roundWordTileId == Option.some t0.id)) = true
      then WordMultiplier.doubleWord else WordMultiplier.none) = WordMultiplier.doubleWord ↔
    g.roundWordTileId = Option.some t0.id
  by_cases hc : (strTruthy g.roundWordTileId && (g.roundWordTileId == Option.some t0.id)) = true
  · rw [if_pos hc]
    simp only [Bool.and_eq_true, beq_iff_eq] at hc
    exact ⟨fun _ => hc.2, fun _ => rfl⟩
  · rw [if_neg hc]
    constructor
    · intro hcontra; exact absurd hcontra (by simp)
    · intro heq
      exfalso
      apply hc
      rw [heq]
      simp only [beq_self_eq_true, Bool.and_true]
      exact strTruthy_some_of_ne _ (hrw _ heq)

theorem shuffleTiles_ids (game : GameState) (rng : Rng) :
    (shuffleTiles game rng).1.tiles.map TileModel.id =
      game.tiles.map TileModel.id := by
  have hperm := shuffleArray_perm
    (game.tiles.map (fun t => (t.letter, t.multiplier, t.hasGem, t.wordMultiplier))) rng
  simp only [shuffleTiles]
  rcases hpl : shuffleArray
    (game.tiles.map (fun t => (t.letter, t.multiplier, t.hasGem, t.wordMultiplier))) rng
    with ⟨pl, rng1⟩
  simp only [hpl] at hperm ⊢
  have hlen : game.tiles.length = pl.length := by
    rw [hperm.length_eq, List.length_map]
  have htiles1 : (((game.tiles.zip pl).map (fun pr =>
      ({ pr.1 with
          letter := pr.2.1, multiplier := pr.2.2.1,
          hasGem := pr.2.2.2.1, wordMultiplier := pr.2.2.2.2 } : TileModel))).map TileModel.id) =
      game.tiles.map TileModel.id := by
    rw [List.map_map]
    exact zip_map_fst_eq _ _ _ _ (fun x y => rfl) hlen
  repeat' split
  all_goals rw [applyRoundWordTile_ids]
  all_goals dsimp only
  all_goals exact htiles1

theorem shuffleTiles_enabled (game : GameState) (rng : Rng) :
    (shuffleTiles game rng).1.wordMultiplierEnabled = game.wordMultiplierEnabled := by
  simp only [shuffleTiles]
  rcases hpl : shuffleArray
    (game.tiles.map (fun t => (t.letter, t.multiplier, t.hasGem, t.wordMultiplier))) rng
    with ⟨pl, rng1⟩
  simp only [hpl]
  repeat' split
  all_goals rfl

theorem shuffleTiles_rwt_of_truthy (game : GameState) (rng : Rng)
    (h : strTruthy game.roundWordTileId = true) :
    (shuffleTiles game rng).1.roundWordTileId = game.roundWordTileId := by
  simp only [shuffleTiles]
  rcases hpl : shuffleArray
    (game.tiles.map (fun t => (t.letter, t.multiplier, t.hasGem, t.wordMultiplier))) rng
    with ⟨pl, rng1⟩
  simp only [hpl, h, Bool.not_true, Bool.and_false, Bool.false_and, Bool.false_eq_true,
    if_false]
  rfl

theorem shuffleTiles_flag (game : GameState) (rng : Rng)
    (hen : game.wordMultiplierEnabled = true)
    (hids : ∀ t ∈ game.tiles, t.id ≠ "")
    (hne : game.tiles ≠ []) :
    ∀ t ∈ (shuffleTiles game rng).1.tiles,
      (t.wordMultiplier = WordMultiplier.doubleWord ↔
        (shuffleTiles game rng).1.roundWordTileId = Option.some t.id) := by
  have hperm := shuffleArray_perm
    (game.tiles.map (fun t => (t.letter, t.multiplier, t.hasGem, t.wordMultiplier))) rng
  simp only [shuffleTiles]
  rcases hpl : shuffleArray
    (game.tiles.map (fun t => (t.letter, t.multiplier, t.hasGem, t.wordMultiplier))) rng
    with ⟨pl, rng1⟩
  simp only [hpl] at hperm ⊢
  have hlen : game.tiles.length = pl.length := by
    rw [hperm.length_eq, List.length_map]
  have hids1 : ∀ u ∈ (game.tiles.zip pl).map (fun pr =>
      ({ pr.1 with
          letter := pr.2.1, multiplier := pr.2.2.1,
          hasGem := pr.2.2.2.1, wordMultiplier := pr.2.2.2.2 } : TileModel)), u.id ≠ "" := by
    intro u hu
    have hm : u.id ∈ ((game.tiles.zip pl).map (fun pr =>
        ({ pr.1 with
            letter := pr.2.1, multiplier := pr.2.2.1,
            hasGem := pr.2.2.2.1, wordMultiplier := pr.2.2.2.2 } : TileModel))).map TileModel.id :=
      List.mem_map_of_mem _ hu
    rw [List.map_map, zip_map_fst_eq _ _ _ TileModel.id (fun x y => rfl) hlen] at hm
    obtain ⟨v, hv, hveq⟩ := List.mem_map.mp hm
    exact hveq ▸ hids v hv
  split
  · split
    · next random heq =>
      refine applyRoundWordTile_flag _ hen ?_
      intro s hs
      simp only [Option.some.injEq] at hs
      subst hs
      have hrmem : random ∈ (game.tiles.zip pl).map (fun pr =>
          ({ pr.1 with
              letter := pr.2.1, multiplier := pr.2.2.1,
              hasGem := pr.2.2.2.1, wordMultiplier := pr.2.2.2.2 } : TileModel)) := by
        rw [List.get?_eq_getElem?] at heq
        obtain ⟨h1, h2⟩ := List.getElem?_eq_some.mp heq
        exact h2 ▸ List.getElem_mem h1
      exact hids1 random hrmem
    · next heq =>
      refine applyRoundWordTile_flag _ hen ?_
      intro s hs
      exact absurd hs (by simp)
  · next hcond =>
    refine applyRoundWordTile_flag _ hen ?_
    intro s hs
    dsimp only at hs
    have hne0 : game.tiles.length ≠ 0 := fun h0 => hne (List.length_eq_zero.mp h0)
    have htruthy : strTruthy game.roundWordTileId = true := by
      by_contra hcontra
      rw [Bool.not_eq_true] at hcontra
      exact hcond (by simp [hen, hcontra, List.length_zip, ← hlen, Nat.min_self, hne0])
    rw [hs] at htruthy
    simp only [strTruthy, bne_iff_ne] at htruthy
    exact htruthy

/-! ### Lemmas: round advancement preserves the board skeleton -/

theorem set_self_of_get? {α : Type} (l : List α) (i : Nat) (b : α)
    (h : l.get? i = Option.some b) : l.set i b = l := by
  apply List.ext_get?
  intro n
  simp only [List.get?_eq_getElem?, List.getElem?_set]
  split
  · next hin =>
    subst hin
    rw [List.get?_eq_getElem?] at h
    obtain ⟨h1, h2⟩ := List.getElem?_eq_some.mp h
    rw [if_pos h1, List.getElem?_eq_getElem h1, h2]
  · rfl

theorem listModify_map_of_eq {α β : Type} (l : List α) (i : Nat) (f : α → α)
    (g : α → β) (hfg : ∀ a, g (f a) = g a) :
    (listModify l i f).map g = l.map g := by
  cases hi : l.get? i with
  | none => simp only [listModify, hi]
  | some a =>
    simp only [listModify, hi, List.map_set, hfg]
    apply set_self_of_get?
    rw [List.get?_eq_getElem?, List.getElem?_map, ← List.get?_eq_getElem?, hi]
    rfl

theorem applyRoundWordTile_skel (g : GameState) :
    (applyRoundWordTile g).tiles.map tileSkel = g.tiles.map tileSkel := by
  simp only [applyRoundWordTile, List.map_map]
  rfl

theorem ensureLetterMultiplier_skel (tiles : List TileModel) (rng : Rng) :
    (ensureLetterMultiplier tiles rng).1.map tileSkel = tiles.map tileSkel := by
  simp only [ensureLetterMultiplier]
  repeat' split
  all_goals first
    | rfl
    | exact listModify_map_of_eq _ _ _ _ (fun a => rfl)

theorem assignMultipliers_skel (g : GameState) (rng : Rng) :
    (assignMultipliers g rng).1.tiles.map tileSkel = g.tiles.map tileSkel := by
  simp only [assignMultipliers]
  split
  · rcases h : ensureLetterMultiplier g.tiles rng with ⟨t, r⟩
    simp only [h]
    have := ensureLetterMultiplier_skel g.tiles rng
    rw [h] at this
    exact this
  · rfl

theorem assignMultipliers_fields (g : GameState) (rng : Rng) :
    (assignMultipliers g rng).1.round = g.round ∧
    (assignMultipliers g rng).1.completed = g.completed ∧
    (assignMultipliers g rng).1.currentPlayerIndex = g.currentPlayerIndex ∧
    (assignMultipliers g rng).1.wordMultiplierEnabled = g.wordMultiplierEnabled := by
  simp only [assignMultipliers]
  split
  · rcases h : ensureLetterMultiplier g.tiles rng with ⟨t, r⟩
    simp only [h]
    exact ⟨by trivial, by trivial, by trivial, by trivial⟩
  · exact ⟨by trivial, by trivial, by trivial, by trivial⟩

theorem selectRoundWordTile_skel (g : GameState) (f : Bool) (rng : Rng) :
    (selectRoundWordTile g f rng).1.tiles.map tileSkel = g.tiles.map tileSkel := by
  simp only [selectRoundWordTile]
  repeat' split
  all_goals first
    | rfl
    | (rw [applyRoundWordTile_skel])

theorem selectRoundWordTile_fields (g : GameState) (f : Bool) (rng : Rng) :
    (selectRoundWordTile g f rng).1.round = g.round ∧
    (selectRoundWordTile g f rng).1.completed = g.completed ∧
    (selectRoundWordTile g f rng).1.currentPlayerIndex = g.currentPlayerIndex := by
  simp only [selectRoundWordTile]
  repeat' split
  all_goals exact ⟨by trivial, by trivial, by trivial⟩

theorem ensureMinimumVowels_noop (tiles : List TileModel) (target : Nat)
    (bagOpt : Option Bag) (rng : Rng)
    (h : target ≤ tiles.countP (fun t => isVowel t.letter)) :
    ensureMinimumVowels tiles target bagOpt rng = (tiles, bagOpt, rng) := by
  simp only [ensureMinimumVowels]
  by_cases h0 : tiles.length = 0
  · rw [if_pos h0]
  · rw [if_neg h0, if_pos (le_trans (min_le_left _ _) h)]

/-- Vowel counts only depend on the skeleton. -/
theorem countVowels_of_skel (a b : List TileModel)
    (h : a.map tileSkel = b.map tileSkel) :
    a.countP (fun t => isVowel t.letter) = b.countP (fun t => isVowel t.letter) := by
  have ha : a.countP (fun t => isVowel t.letter) =
      (a.map tileSkel).countP (fun q => isVowel q.2.2.2.1) := by
    rw [List.countP_map]; rfl
  have hb : b.countP (fun t => isVowel t.letter) =
      (b.map tileSkel).countP (fun q => isVowel q.2.2.2.1) := by
    rw [List.countP_map]; rfl
  rw [ha, hb, h]

/-! ### Claim C3 -/

/-- Claim C3: on an active game with `round < totalRounds` whose board
satisfies the minimum-vowel invariant, `advanceRound` increments `round` by
exactly one and leaves every tile's id, position, `letter` and `hasGem`
unchanged (so only multiplier assignments, the word-multiplier position and
the enablement flags can change); the player list, `completed` and
`currentPlayerIndex` are also untouched. -/
theorem C3_advanceRound_frame (room : Room) (now : Nat) (rng : Rng)
    (game : GameState) (hg : room.game = Option.some game)
    (hlt : game.round < game.totalRounds)
    (hvow : MIN_VOWELS ≤ game.tiles.countP (fun t => isVowel t.letter)) :
    ∃ game', (advanceRound room now rng).1.game = Option.some game' ∧
      game'.round = game.round + 1 ∧
      game'.tiles.map tileSkel = game.tiles.map tileSkel ∧
      game'.completed = game.completed ∧
      game'.currentPlayerIndex = game.currentPlayerIndex ∧
      (advanceRound room now rng).1.players = room.players := by
  simp only [advanceRound, hg, if_pos hlt]
  rcases hm : assignMultipliers { game with
      round := game.round + 1,
      multipliersEnabled := decide (1 < game.round + 1),
      wordMultiplierEnabled := decide (2 ≤ game.round + 1) } rng with ⟨game3, rng1⟩
  simp only [hm]
  have hskel3 : game3.tiles.map tileSkel = game.tiles.map tileSkel := by
    have := assignMultipliers_skel { game with
      round := game.round + 1,
      multipliersEnabled := decide (1 < game.round + 1),
      wordMultiplierEnabled := decide (2 ≤ game.round + 1) } rng
    rw [hm] at this
    exact this
  obtain ⟨hr3, hc3, hi3, hw3⟩ := by
    have := assignMultipliers_fields { game with
      round := game.round + 1,
      multipliersEnabled := decide (1 < game.round + 1),
      wordMultiplierEnabled := decide (2 ≤ game.round + 1) } rng
    rw [hm] at this
    exact this
  set game4 := if !game3.wordMultiplierEnabled then
    { game3 with roundWordTileId := Option.none } else game3 with hg4
  have hskel4 : game4.tiles.map tileSkel = game.tiles.map tileSkel := by
    rw [hg4]; split <;> exact hskel3
  have hf4 : game4.round = game.round + 1 ∧ game4.completed = game.completed ∧
      game4.currentPlayerIndex = game.currentPlayerIndex := by
    rw [hg4]; split <;> exact ⟨hr3, hc3, hi3⟩
  rcases hsel : (if game4.wordMultiplierEnabled = true then
      selectRoundWordTile game4 true rng1
    else (applyRoundWordTile game4, rng1)) with ⟨game5, rng2⟩
  simp only [hsel]
  have hskel5 : game5.tiles.map tileSkel = game.tiles.map tileSkel := by
    rcases ifh : (if game4.wordMultiplierEnabled = true then
        selectRoundWordTile game4 true rng1
      else (applyRoundWordTile game4, rng1)) with ⟨g5, r2⟩
    rw [ifh] at hsel
    cases hsel
    revert ifh
    split
    · intro ifh
      have := selectRoundWordTile_skel game4 true rng1
      rw [ifh] at this
      simp only at this
      rw [this]
      exact hskel4
    · intro ifh
      cases ifh
      rw [applyRoundWordTile_skel]
      exact hskel4
  have hf5 : game5.round = game.round + 1 ∧ game5.completed = game.completed ∧
      game5.currentPlayerIndex = game.currentPlayerIndex := by
    rcases ifh : (if game4.wordMultiplierEnabled = true then
        selectRoundWordTile game4 true rng1
      else (applyRoundWordTile game4, rng1)) with ⟨g5, r2⟩
    rw [ifh] at hsel
    cases hsel
    revert ifh
    split
    · intro ifh
      have := selectRoundWordTile_fields game4 true rng1
      rw [ifh] at this
      simp only at this
      exact ⟨this.1 ▸ hf4.1, this.2.1 ▸ hf4.2.1, this.2.2 ▸ hf4.2.2⟩
    · intro ifh
      cases ifh
      exact hf4
  have hvow5 : MIN_VOWELS ≤ game5.tiles.countP (fun t => isVowel t.letter) := by
    rw [countVowels_of_skel game5.tiles game.tiles hskel5]
    exact hvow
  rw [ensureMinimumVowels_noop game5.tiles MIN_VOWELS Option.none rng2 hvow5]
  exact ⟨_, rfl, hf5.1, hskel5, hf5.2.1, hf5.2.2, by trivial⟩

/-- Witness for C3: the frame theorem at a concrete single-player room. -/
theorem C3_advanceRound_frame_witness :
    ∃ game', (advanceRound roomC3 7 (constRng 0)).1.game = Option.some game' ∧
      game'.round = gameC3.round + 1 ∧
      game'.tiles.map tileSkel = gameC3.tiles.map tileSkel :=
  match C3_advanceRound_frame roomC3 7 (constRng 0) gameC3 rfl (by decide) (by decide) with
  | ⟨g, h1, h2, h3, _⟩ => ⟨g, h1, h2, h3⟩

/-! ### Lemmas: failed operations leave the room unchanged -/

theorem shuffleBoard_fail_frame (room : Room) (pid : String) (rng : Rng)
    (h : ((shuffleBoard room pid rng).2.1).success = false) :
    (shuffleBoard room pid rng).1 = room := by
  simp only [shuffleBoard] at h ⊢
  cases hg : room.game with
  | none => simp only [hg]
  | some game =>
    simp only [hg] at h ⊢
    cases hpi : room.players.findIdx? (fun p => p.id == pid) with
    | none => simp only [hpi]
    | some pi =>
      simp only [hpi] at h ⊢
      cases hpl : room.players.get? pi with
      | none => simp only [hpl]
      | some player =>
        simp only [hpl] at h ⊢
        by_cases hspec : player.isSpectator = true
        · simp only [if_pos hspec]
        · simp only [if_neg hspec] at h ⊢
          by_cases hgem : player.gems < 1
          · simp only [if_pos hgem]
          · simp only [if_neg hgem] at h
            rcases hsh : shuffleTiles game rng with ⟨game3, rng2⟩
            simp only [hsh, okA] at h
            exact Bool.noConfusion h

theorem requestSwapMode_fail_frame (room : Room) (pid : String)
    (h : ((requestSwapMode room pid).2).success = false) :
    (requestSwapMode room pid).1 = room := by
  simp only [requestSwapMode] at h ⊢
  cases hg : room.game with
  | none => simp only [hg]
  | some game =>
    simp only [hg] at h ⊢
    cases hpl : room.players.find? (fun p => p.id == pid) with
    | none => simp only [hpl]
    | some player =>
      simp only [hpl] at h ⊢
      by_cases hspec : player.isSpectator = true
      · simp only [if_pos hspec]
      · simp only [if_neg hspec] at h ⊢
        by_cases hgem : player.gems < 3
        · simp only [if_pos hgem]
        · simp only [if_neg hgem, okA] at h
          exact Bool.noConfusion h

theorem applySwap_fail_frame (room : Room) (pid tid letter : String) (rng : Rng)
    (h : ((applySwap room pid tid letter rng).2.1).success = false) :
    (applySwap room pid tid letter rng).1 = room := by
  simp only [applySwap] at h ⊢
  cases hg : room.game with
  | none => simp only [hg]
  | some game =>
    simp only [hg] at h ⊢
    cases hpi : room.players.findIdx? (fun p => p.id == pid) with
    | none => simp only [hpi]
    | some pi =>
      simp only [hpi] at h ⊢
      cases hpl : room.players.get? pi with
      | none => simp only [hpl]
      | some player =>
        simp only [hpl] at h ⊢
        by_cases hspec : player.isSpectator = true
        · simp only [if_pos hspec]
        · simp only [if_neg hspec] at h ⊢
          by_cases hmode : game.swapModePlayerId ≠ Option.some pid
          · simp only [if_pos hmode]
          · simp only [if_neg hmode] at h ⊢
            by_cases hgem : player.gems < 3
            · simp only [if_pos hgem]
            · simp only [if_neg hgem] at h ⊢
              cases hti : game.tiles.findIdx? (fun t => t.id == tid) with
              | none => simp only [hti]
              | some ti =>
                simp only [hti, okA] at h
                exact Bool.noConfusion h

theorem getCurrentTurnPlayer_cases (room : Room) :
    (getCurrentTurnPlayer room).1 = room ∨
    (∃ game fa, room.game = Option.some game ∧
      findFirstActiveIndex room = Option.some fa ∧
      (getCurrentTurnPlayer room).1 =
        { room with game := Option.some { game with currentPlayerIndex := fa } }) := by
  cases hg : room.game with
  | none => simp only [getCurrentTurnPlayer, hg]; exact Or.inl (by trivial)
  | some game =>
    simp only [getCurrentTurnPlayer, hg]
    by_cases hact : hasActivePlayers room = true
    · simp only [hact, Bool.not_true, Bool.false_eq_true, if_false]
      by_cases hlen : room.players.length = 0
      · simp only [if_pos hlen]; exact Or.inl (by trivial)
      · simp only [if_neg hlen]
        split
        · cases hfa : findFirstActiveIndex room with
          | none => simp only [hfa]; exact Or.inl (by trivial)
          | some fa =>
            simp only [hfa]
            exact Or.inr ⟨game, fa, rfl, rfl, rfl⟩
        · exact Or.inl (by trivial)
    · rw [Bool.not_eq_true] at hact
      simp only [hact, Bool.not_false, if_true]
      exact Or.inl (by trivial)

theorem getCurrentTurnPlayer_players (room : Room) :
    (getCurrentTurnPlayer room).1.players = room.players := by
  rcases getCurrentTurnPlayer_cases room with h | ⟨g, fa, _, _, h⟩ <;> rw [h]

theorem submitWordCommit_success (room1 : Room) (player : Player) (game : GameState)
    (tileIds : List String) (typedTiles : List TileModel) (word : String)
    (now : Nat) (rng : Rng) :
    ((submitWordCommit room1 player game tileIds typedTiles word now rng).2.1).success =
      true := by
  simp only [submitWordCommit]
  repeat' split
  all_goals rfl

theorem submitWord_fail_frame (room : Room) (pid : String) (tileIds : List String)
    (dict : String → Bool) (now : Nat) (rng : Rng)
    (h : ((submitWord room pid tileIds dict now rng).2.1).success = false) :
    (submitWord room pid tileIds dict now rng).1.players = room.players ∧
    ((submitWord room pid tileIds dict now rng).1 = room ∨
     ∃ game fa, room.game = Option.some game ∧
       findFirstActiveIndex room = Option.some fa ∧
       (submitWord room pid tileIds dict now rng).1 =
         { room with game := Option.some { game with currentPlayerIndex := fa } }) := by
  simp only [submitWord] at h ⊢
  cases hg : room.game with
  | none => simp only [hg]; exact ⟨by trivial, Or.inl (by trivial)⟩
  | some game0 =>
    simp only [hg] at h ⊢
    by_cases hcomp : game0.completed = true
    · simp only [if_pos hcomp]; exact ⟨by trivial, Or.inl (by trivial)⟩
    · simp only [if_neg hcomp] at h ⊢
      by_cases hemp : tileIds = []
      · simp only [if_pos hemp]; exact ⟨by trivial, Or.inl (by trivial)⟩
      · simp only [if_neg hemp] at h ⊢
        rcases hct : getCurrentTurnPlayer room with ⟨room1, playerOpt⟩
        simp only [hct] at h ⊢
        have hcases := getCurrentTurnPlayer_cases room
        have hplayers := getCurrentTurnPlayer_players room
        rw [hct] at hcases hplayers
        simp only at hcases hplayers
        rw [hg] at hcases
        cases playerOpt with
        | none => dsimp only; exact ⟨hplayers, hcases⟩
        | some player =>
          dsimp only at h ⊢
          by_cases hpid : player.id ≠ pid
          · simp only [if_pos hpid]; exact ⟨hplayers, hcases⟩
          · simp only [if_neg hpid] at h ⊢
            cases hg1 : room1.game with
            | none => simp only [hg1]; exact ⟨hplayers, hcases⟩
            | some game =>
              simp only [hg1] at h ⊢
              by_cases hunk : (tileIds.map (fun id =>
                  game.tiles.find? (fun t => t.id == id))).any (fun o => o.isNone) = true
              · simp only [if_pos hunk]; exact ⟨hplayers, hcases⟩
              · simp only [if_neg hunk] at h ⊢
                by_cases hval : isValidSelection ((tileIds.map (fun id =>
                    game.tiles.find? (fun t => t.id == id))).filterMap (fun o => o)) = true
                · simp only [hval, Bool.not_true, Bool.false_eq_true, if_false] at h ⊢
                  by_cases hdict : dict (jsToUpper ((((tileIds.map (fun id =>
                      game.tiles.find? (fun t => t.id == id))).filterMap (fun o => o)).map
                      (fun t => t.letter)).foldl (fun a b => a ++ b) "")) = true
                  · simp only [hdict, Bool.not_true, Bool.false_eq_true, if_false] at h
                    rw [submitWordCommit_success] at h
                    exact Bool.noConfusion h
                  · simp only [hdict, Bool.not_true] at h ⊢
                    simp only [Bool.not_false, if_true]
                    exact ⟨hplayers, hcases⟩
                · simp only [Bool.not_eq_true] at hval
                  simp only [hval, Bool.not_false, if_true]
                  exact ⟨hplayers, hcases⟩

/-! ### Claim C6 -/

/-- Claim C6 (amended): a failed `shuffleBoard`, `requestSwapMode` or
`applySwap` leaves the Room exactly as before the call; a failed
`submitWord` leaves the player list (scores, gems) and everything else
unchanged too, except that it may first repair a stale
`currentPlayerIndex` (out of range or pointing at a spectator) to the
index of the first non-spectator player. -/
theorem C6_failure_frame :
    (∀ room pid rng, ((shuffleBoard room pid rng).2.1).success = false →
       (shuffleBoard room pid rng).1 = room) ∧
    (∀ room pid, ((requestSwapMode room pid).2).success = false →
       (requestSwapMode room pid).1 = room) ∧
    (∀ room pid tid letter rng,
       ((applySwap room pid tid letter rng).2.1).success = false →
       (applySwap room pid tid letter rng).1 = room) ∧
    (∀ room pid tileIds dict now rng,
       ((submitWord room pid tileIds dict now rng).2.1).success = false →
       (submitWord room pid tileIds dict now rng).1.players = room.players ∧
       ((submitWord room pid tileIds dict now rng).1 = room ∨
        ∃ game fa, room.game = Option.some game ∧
          findFirstActiveIndex room = Option.some fa ∧
          (submitWord room pid tileIds dict now rng).1 =
            { room with game := Option.some { game with currentPlayerIndex := fa } })) :=
  ⟨shuffleBoard_fail_frame, requestSwapMode_fail_frame,
   applySwap_fail_frame, submitWord_fail_frame⟩

/-- Witness for C6: the amended frame at concrete failing calls (spectator
shuffle; submitWord by the spectator with a stale index). -/
theorem C6_failure_frame_witness :
    (shuffleBoard roomC6 "s1" (constRng 0)).1 = roomC6 ∧
    (submitWord roomC6 "s1" ["0-0"] (fun _ => true) 0 (constRng 0)).1.players =
      roomC6.players := by
  constructor
  · exact C6_failure_frame.1 roomC6 "s1" (constRng 0) (by decide)
  · exact (C6_failure_frame.2.2.2 roomC6 "s1" ["0-0"] (fun _ => true) 0 (constRng 0)
      (by decide)).1

/-- Counterexample for C6 as stated: a failed `submitWord` (not the
spectator caller's turn) still mutates the Room — the stale
`currentPlayerIndex` 0 (a spectator) is repaired to 1. -/
theorem C6_counterexample :
    ((submitWord roomC6 "s1" ["0-0"] (fun _ => true) 0 (constRng 0)).2.1).success = false ∧
    (submitWord roomC6 "s1" ["0-0"] (fun _ => true) 0 (constRng 0)).1 ≠ roomC6 ∧
    ((submitWord roomC6 "s1" ["0-0"] (fun _ => true) 0 (constRng 0)).1.game.map
      (fun g => g.currentPlayerIndex)) = Option.some 1 := by decide

/-! ### Lemmas: the letter bag -/

theorem randomLetter_mem (rng : Rng) :
    ∃ c ∈ LETTERS.data, (randomLetter rng).1 = String.mk [c] := by
  unfold randomLetter letterAt Rng.below Rng.next
  have hlen : LETTERS.data.length = 26 := by decide
  have hne : ¬LETTERS.data.length = 0 := by rw [hlen]; omega
  simp only [if_neg hne]
  have hlt : rng.stream rng.pos % LETTERS.data.length < LETTERS.data.length := by
    apply Nat.mod_lt; omega
  rw [List.get?_eq_getElem?, List.getElem?_eq_getElem hlt]
  exact ⟨LETTERS.data[rng.stream rng.pos % LETTERS.data.length], List.getElem_mem hlt, rfl⟩

theorem bagFilteredEntries_pos (bag : Bag) (filter : Option (String → Bool)) :
    ∀ e ∈ bagFilteredEntries bag filter, 0 < e.2 := by
  intro e he
  have := (List.mem_filter.mp he).2
  by_cases h : e.2 ≤ 0
  · rw [if_pos h] at this; exact Bool.noConfusion this
  · omega

theorem bagFilteredEntries_mem (bag : Bag) (filter : Option (String → Bool)) :
    ∀ e ∈ bagFilteredEntries bag filter, e ∈ bag := by
  intro e he
  exact (List.mem_filter.mp he).1

theorem bagFilteredEntries_filter_true (bag : Bag) (f : String → Bool) :
    ∀ e ∈ bagFilteredEntries bag (Option.some f), f e.1 = true := by
  intro e he
  have := (List.mem_filter.mp he).2
  by_cases h : e.2 ≤ 0
  · rw [if_pos h] at this; exact Bool.noConfusion this
  · rw [if_neg h] at this; exact this

theorem foldl_add_snd (l : List (String × Int)) :
    l.foldl (fun sum e => sum + e.2) 0 = (l.map Prod.snd).sum := by
  rw [List.sum_eq_foldl, List.foldl_map]

theorem bagFilteredTotal_eq_sum (bag : Bag) (filter : Option (String → Bool)) :
    bagFilteredTotal bag filter = ((bagFilteredEntries bag filter).map Prod.snd).sum :=
  foldl_add_snd _

theorem bagFilteredTotal_nonpos_of_nil (bag : Bag) (filter : Option (String → Bool))
    (h : bagFilteredEntries bag filter = []) : bagFilteredTotal bag filter = 0 := by
  rw [bagFilteredTotal_eq_sum, h]
  rfl

theorem drawLoop_some (bag : Bag) (t : Int) (entries : List (String × Int)) (c : Int)
    (hpos : ∀ e ∈ entries, 0 < e.2) (hct : c ≤ t)
    (hbound : t < c + (entries.map Prod.snd).sum) :
    ∃ letter count, (letter, count) ∈ entries ∧
      drawLoop bag t c entries =
        Option.some (letter, (consumeLetterFromBag bag letter).1) := by
  induction entries generalizing c with
  | nil =>
    exfalso
    simp only [List.map_nil, List.sum_nil, add_zero] at hbound
    omega
  | cons e rest ih =>
    rcases e with ⟨letter, count⟩
    simp only [drawLoop]
    by_cases hlt : t < c + count
    · rw [if_pos hlt]
      exact ⟨letter, count, List.mem_cons_self _ _, rfl⟩
    · rw [if_neg hlt]
      have hle : c + count ≤ t := not_lt.mp hlt
      have hbound' : t < c + count + (rest.map Prod.snd).sum := by
        simp only [List.map_cons, List.sum_cons] at hbound
        omega
      obtain ⟨l2, c2, hmem, heq⟩ :=
        ih (c + count) (fun e he => hpos e (List.mem_cons_of_mem _ he)) hle hbound'
      exact ⟨l2, c2, List.mem_cons_of_mem _ hmem, heq⟩

theorem mapGet_of_nodup (m : Bag) (k : String) (v : Int)
    (hnd : (m.map Prod.fst).Nodup) (hmem : (k, v) ∈ m) :
    mapGet m k = Option.some v := by
  induction m with
  | nil => cases hmem
  | cons hd tl ih =>
    simp only [List.map_cons, List.nodup_cons] at hnd
    rcases List.mem_cons.mp hmem with h | h
    · subst h
      unfold mapGet
      rw [List.find?_cons_of_pos _ (by simp)]
      rfl
    · have hne : (decide (hd.1 = k)) = false := by
        simp only [decide_eq_false_iff_not]
        intro hcontra
        exact hnd.1 (hcontra ▸ List.mem_map.mpr ⟨(k, v), h, rfl⟩)
      unfold mapGet
      have hstep : List.find? (fun e => e.1 = k) (hd :: tl) =
          List.find? (fun e => e.1 = k) tl := by
        rw [List.find?_cons]
        rw [hne]
      rw [hstep]
      exact ih hnd.2 h

theorem consumeLetterFromBag_spec (bag : Bag) (letter : String) (count : Int)
    (hkey : normalizeLetterKey letter = letter)
    (hget : mapGet bag letter = Option.some count) (hpos : 0 < count) :
    consumeLetterFromBag bag letter = (mapSet bag letter (count - 1), true) := by
  simp only [consumeLetterFromBag, hkey, hget]
  rw [if_neg (by omega)]

/-! ### Claim C8 -/

/-- Claim C8 (amended): for a bag with normalized, pairwise-distinct keys:
when the filtered positive total is positive, `drawLetterFromBag` returns a
letter whose count in the bag was positive and passes the filter, marks
`fromBag = true` and decrements exactly that letter's count by 1; when the
filtered pool is empty or exhausted it returns `fromBag = false`, leaves the
bag unchanged, and draws from the static full alphabet regardless of the
filter (not from the vowel subset — see the counterexample). -/
theorem C8_drawLetterFromBag (bag : Bag) (filter : Option (String → Bool)) (rng : Rng)
    (hkeys : ∀ e ∈ bag, normalizeLetterKey e.1 = e.1)
    (hnd : (bag.map Prod.fst).Nodup) :
    (0 < bagFilteredTotal bag filter →
      (drawLetterFromBag bag filter rng).1.2 = true ∧
      ∃ count, mapGet bag (drawLetterFromBag bag filter rng).1.1 = Option.some count ∧
        0 < count ∧
        (∀ f, filter = Option.some f → f (drawLetterFromBag bag filter rng).1.1 = true) ∧
        (drawLetterFromBag bag filter rng).2.1 =
          mapSet bag (drawLetterFromBag bag filter rng).1.1 (count - 1)) ∧
    (bagFilteredTotal bag filter ≤ 0 →
      (drawLetterFromBag bag filter rng).1.2 = false ∧
      (drawLetterFromBag bag filter rng).2.1 = bag ∧
      ∃ ch ∈ LETTERS.data, (drawLetterFromBag bag filter rng).1.1 = String.mk [ch]) := by
  constructor
  · intro hpos
    have hne : bagFilteredEntries bag filter ≠ [] := by
      intro hnil
      rw [bagFilteredTotal_nonpos_of_nil bag filter hnil] at hpos
      omega
    simp only [drawLetterFromBag, if_pos (And.intro hpos hne)]
    rcases hb : rng.below (bagFilteredTotal bag filter).toNat with ⟨tN, rng'⟩
    simp only [hb]
    have htN : tN < (bagFilteredTotal bag filter).toNat := by
      have h0 : (bagFilteredTotal bag filter).toNat ≠ 0 := by
        omega
      have := Rng_below_lt rng (bagFilteredTotal bag filter).toNat h0
      rw [hb] at this
      exact this
    have hboundZ : (Int.ofNat tN) <
        0 + ((bagFilteredEntries bag filter).map Prod.snd).sum := by
      rw [zero_add, ← bagFilteredTotal_eq_sum, Int.ofNat_eq_coe]
      omega
    obtain ⟨letter, count, hmem, heq⟩ :=
      drawLoop_some bag (Int.ofNat tN) (bagFilteredEntries bag filter) 0
        (bagFilteredEntries_pos bag filter) (by rw [Int.ofNat_eq_coe]; omega) hboundZ
    rw [heq]
    have hmemBag : (letter, count) ∈ bag := bagFilteredEntries_mem bag filter _ hmem
    have hcount : 0 < count := bagFilteredEntries_pos bag filter _ hmem
    have hget : mapGet bag letter = Option.some count := mapGet_of_nodup bag letter count hnd hmemBag
    have hkey : normalizeLetterKey letter = letter := hkeys (letter, count) hmemBag
    have hcons := consumeLetterFromBag_spec bag letter count hkey hget hcount
    refine ⟨rfl, count, hget, hcount, ?_, ?_⟩
    · intro f hf
      subst hf
      exact bagFilteredEntries_filter_true bag f _ hmem
    · show (consumeLetterFromBag bag letter).1 = mapSet bag letter (count - 1)
      rw [hcons]
  · intro hle
    have hcond : ¬(0 < bagFilteredTotal bag filter ∧ bagFilteredEntries bag filter ≠ []) := by
      intro hc
      have := hc.1
      omega
    simp only [drawLetterFromBag, if_neg hcond]
    rcases hrl : randomLetter rng with ⟨l, r⟩
    simp only [hrl]
    refine ⟨by trivial, by trivial, ?_⟩
    have := randomLetter_mem rng
    rw [hrl] at this
    exact this

/-- Witness for C8: the theorem applied to a concrete two-letter bag with no
filter (weighted branch) and to the fallback via the second conjunct of the
empty bag. -/
theorem C8_drawLetterFromBag_witness :
    (drawLetterFromBag [("A", 2), ("B", 1)] Option.none (constRng 0)).1.2 = true ∧
    (drawLetterFromBag [] Option.none (constRng 0)).1.2 = false := by
  constructor
  · exact ((C8_drawLetterFromBag [("A", 2), ("B", 1)] Option.none (constRng 0)
      (by decide) (by decide)).1 (by decide)).1
  · exact ((C8_drawLetterFromBag [] Option.none (constRng 0)
      (by decide) (by decide)).2 (by decide)).1

/-- Counterexample for C8 as stated: with an exhausted (here empty) bag and
the vowel filter, the fallback draw can return the consonant "B" — the
fallback is a uniform draw from the full alphabet, not from the vowel
subset. -/
theorem C8_counterexample :
    (drawLetterFromBag [] (Option.some isVowel) (constRng 1)).1 = ("B", false) ∧
    isVowel "B" = false := by decide

/-! ### Lemmas: selection validity -/

theorem adj_test_false_iff (prev t : TileModel) :
    ((1 < (prev.x - t.x).natAbs || 1 < (prev.y - t.y).natAbs ||
      ((prev.x - t.x).natAbs == 0 && (prev.y - t.y).natAbs == 0)) = false) ↔
    chebAdjacent prev t := by
  unfold chebAdjacent
  simp only [Bool.or_eq_false_iff, decide_eq_false_iff_not, not_lt,
    Bool.and_eq_false_iff, beq_eq_false_iff_ne, ne_eq]
  omega

theorem isValidSelectionGo_iff (rest : List TileModel) :
    ∀ (prev : TileModel) (seen : List String),
    isValidSelectionGo prev seen rest = true ↔
      ((rest.map TileModel.id).Nodup ∧ (∀ id ∈ rest.map TileModel.id, id ∉ seen) ∧
       List.Chain' chebAdjacent (prev :: rest)) := by
  induction rest with
  | nil =>
    intro prev seen
    simp [isValidSelectionGo]
  | cons t rest ih =>
    intro prev seen
    simp only [isValidSelectionGo]
    by_cases hcont : seen.contains t.id = true
    · rw [if_pos hcont]
      constructor
      · intro h; exact absurd h (by simp)
      · rintro ⟨hnd, hseen, hch⟩
        exact absurd (List.mem_of_elem_eq_true hcont)
          (hseen t.id (by simp))
    · rw [if_neg hcont]
      have htid : t.id ∉ seen := fun hmem => hcont (List.elem_eq_true_of_mem hmem)
      by_cases hadj : (1 < (prev.x - t.x).natAbs || 1 < (prev.y - t.y).natAbs ||
          ((prev.x - t.x).natAbs == 0 && (prev.y - t.y).natAbs == 0)) = true
      · rw [if_pos hadj]
        constructor
        · intro h; exact absurd h (by simp)
        · rintro ⟨hnd, hseen, hch⟩
          have := (adj_test_false_iff prev t).mpr ((List.chain'_cons.mp hch).1)
          rw [this] at hadj
          exact Bool.noConfusion hadj
      · rw [if_neg hadj]
        have hfalse : (1 < (prev.x - t.x).natAbs || 1 < (prev.y - t.y).natAbs ||
            ((prev.x - t.x).natAbs == 0 && (prev.y - t.y).natAbs == 0)) = false := by
          cases h : (1 < (prev.x - t.x).natAbs || 1 < (prev.y - t.y).natAbs ||
              ((prev.x - t.x).natAbs == 0 && (prev.y - t.y).natAbs == 0)) with
          | false => rfl
          | true => exact absurd h hadj
        have hadjp : chebAdjacent prev t := (adj_test_false_iff prev t).mp hfalse
        rw [ih t (t.id :: seen)]
        simp only [List.map_cons, List.nodup_cons, List.mem_cons, List.chain'_cons]
        constructor
        · rintro ⟨hnd, hseen, hch⟩
          refine ⟨⟨?_, hnd⟩, ?_, hadjp, hch⟩
          · intro hmem
            exact (hseen t.id hmem) (Or.inl rfl)
          · intro id hid
            rcases hid with hid | hid
            · exact hid ▸ htid
            · intro hs
              exact hseen id hid (Or.inr hs)
        · rintro ⟨⟨hni, hnd⟩, hseen, hadj', hch⟩
          refine ⟨hnd, ?_, hch⟩
          intro id hid
          intro hmem
          rcases hmem with hmem | hmem
          · exact hni (hmem ▸ hid)
          · exact hseen id (Or.inr hid) hmem

theorem isValidSelection_iff (tiles : List TileModel) :
    isValidSelection tiles = true ↔
      ((tiles.map TileModel.id).Nodup ∧ List.Chain' chebAdjacent tiles) := by
  cases tiles with
  | nil => simp [isValidSelection]
  | cons t rest =>
    simp only [isValidSelection]
    rw [isValidSelectionGo_iff]
    simp only [List.map_cons, List.nodup_cons, List.mem_singleton]
    constructor
    · rintro ⟨hnd, hseen, hch⟩
      refine ⟨⟨?_, hnd⟩, hch⟩
      intro hmem
      exact hseen t.id hmem rfl
    · rintro ⟨⟨hni, hnd⟩, hch⟩
      refine ⟨hnd, ?_, hch⟩
      intro id hid hmem
      exact hni (hmem ▸ hid)

theorem resolveTiles_eq (g : GameState) (tileIds : List String) :
    (tileIds.map (fun id => g.tiles.find? (fun t => t.id == id))).filterMap
      (fun o => o) = resolveTiles g tileIds := by
  rw [List.filterMap_map]
  rfl

theorem resolveTiles_ids (g : GameState) (tileIds : List String)
    (hall : ∀ id ∈ tileIds, (g.tiles.find? (fun t => t.id == id)).isSome = true) :
    (resolveTiles g tileIds).map TileModel.id = tileIds := by
  induction tileIds with
  | nil => rfl
  | cons id rest ih =>
    have hhd := hall id (List.mem_cons_self _ _)
    cases hf : g.tiles.find? (fun t => t.id == id) with
    | none => rw [hf] at hhd; exact Bool.noConfusion hhd
    | some t =>
      have htid : t.id = id :=
        beq_iff_eq.mp (List.find?_some (p := fun (u : TileModel) => u.id == id) hf)
      simp only [resolveTiles, List.filterMap_cons, hf, List.map_cons, htid]
      have := ih (fun i hi => hall i (List.mem_cons_of_mem _ hi))
      rw [resolveTiles] at this
      rw [this]

theorem any_isNone_false_iff (g : GameState) (tileIds : List String) :
    ((tileIds.map (fun id => g.tiles.find? (fun t => t.id == id))).any
      (fun o => o.isNone) = false) ↔
    ∀ id ∈ tileIds, (g.tiles.find? (fun t => t.id == id)).isSome = true := by
  rw [← Bool.not_eq_true, List.any_eq_true]
  constructor
  · intro h id hid
    by_cases hf : (g.tiles.find? (fun t => t.id == id)).isSome = true
    · exact hf
    · exfalso
      apply h
      refine ⟨g.tiles.find? (fun t => t.id == id), List.mem_map_of_mem _ hid, ?_⟩
      cases hff : g.tiles.find? (fun t => t.id == id) with
      | none => rfl
      | some t => rw [hff] at hf; exact absurd rfl hf
  · intro h hcontra
    obtain ⟨o, ho, hno⟩ := hcontra
    obtain ⟨id, hid, rfl⟩ := List.mem_map.mp ho
    have := h id hid
    cases hff : g.tiles.find? (fun t => t.id == id) with
    | none => rw [hff] at this; exact Bool.noConfusion this
    | some t => rw [hff] at hno; exact Bool.noConfusion hno

theorem any_isNone_true_iff (g : GameState) (tileIds : List String) :
    ((tileIds.map (fun id => g.tiles.find? (fun t => t.id == id))).any
      (fun o => o.isNone) = true) ↔
    ∃ id ∈ tileIds, ∀ t ∈ g.tiles, t.id ≠ id := by
  rw [List.any_eq_true]
  constructor
  · rintro ⟨o, ho, hno⟩
    obtain ⟨id, hid, rfl⟩ := List.mem_map.mp ho
    refine ⟨id, hid, ?_⟩
    have hnone : g.tiles.find? (fun t => t.id == id) = Option.none := by
      cases hff : g.tiles.find? (fun t => t.id == id) with
      | none => rfl
      | some t => rw [hff] at hno; exact Bool.noConfusion hno
    intro t ht heq
    have := List.find?_eq_none.mp hnone t ht
    apply this
    simp [heq]
  · rintro ⟨id, hid, hforall⟩
    refine ⟨g.tiles.find? (fun t => t.id == id), List.mem_map_of_mem _ hid, ?_⟩
    have hnone : g.tiles.find? (fun t => t.id == id) = Option.none := by
      rw [List.find?_eq_none]
      intro t ht hcontra
      exact hforall t ht (beq_iff_eq.mp hcontra)
    rw [hnone]
    rfl

theorem getCurrentTurnPlayer_game_eq (room : Room) (g0 g1 : GameState)
    (hg : room.game = Option.some g0)
    (hg1 : (getCurrentTurnPlayer room).1.game = Option.some g1) :
    g1.tiles = g0.tiles ∧ g1.completed = g0.completed := by
  rcases getCurrentTurnPlayer_cases room with h | ⟨g, fa, hgg, _, h⟩
  · rw [h, hg] at hg1
    cases hg1
    exact ⟨rfl, rfl⟩
  · rw [hgg] at hg
    cases hg
    rw [h] at hg1
    simp only [Option.some.injEq] at hg1
    subst hg1
    exact ⟨rfl, rfl⟩

theorem submitWordCommit_result (room1 : Room) (player : Player) (game : GameState)
    (tileIds : List String) (typedTiles : List TileModel) (word : String)
    (now : Nat) (rng : Rng) :
    (submitWordCommit room1 player game tileIds typedTiles word now rng).2.1 =
      { success := true, error := Option.none,
        payload := Option.some
          { word := jsToUpper word,
            points := calculateWordScore typedTiles
              (decide (LONG_WORD_THRESHOLD ≤ word.length)),
            gems := (typedTiles.filter (fun t => t.hasGem)).length,
            longWordBonus := decide (LONG_WORD_THRESHOLD ≤ word.length) } } := by
  simp only [submitWordCommit]
  repeat' split
  all_goals rfl

theorem getCurrentTurnPlayer_game_some (room : Room) (g0 : GameState)
    (hg : room.game = Option.some g0) :
    ∃ g1, (getCurrentTurnPlayer room).1.game = Option.some g1 := by
  rcases getCurrentTurnPlayer_cases room with h | ⟨g, fa, hgg, _, h⟩
  · exact ⟨g0, by rw [h, hg]⟩
  · exact ⟨{ g with currentPlayerIndex := fa }, by rw [h]⟩

/-! ### Claim C5 -/

/-- Claim C5: `submitWord` is total and returns a failure result exactly when
one of the checks fails — no active game; game completed; empty selection;
the resolved current-turn player is absent or is not the caller; an unknown
tile id, a repeated tile id, or a consecutive pair that is not 8-adjacent
(Chebyshev distance 1, excluding self); or the concatenated uppercased word
is not in the dictionary.  Otherwise it succeeds with the
{word, points, gems, longWordBonus} payload. -/
theorem C5_submitWord_result (room : Room) (pid : String) (tileIds : List String)
    (dict : String → Bool) (now : Nat) (rng : Rng) :
    (((submitWord room pid tileIds dict now rng).2.1).success = false ↔
      (room.game = Option.none ∨
       (∃ g, room.game = Option.some g ∧ g.completed = true) ∨
       tileIds = [] ∨
       (∀ p, (getCurrentTurnPlayer room).2 = Option.some p → p.id ≠ pid) ∨
       (∃ g, room.game = Option.some g ∧
         ((∃ id ∈ tileIds, ∀ t ∈ g.tiles, t.id ≠ id) ∨
          ¬tileIds.Nodup ∨
          ¬List.Chain' chebAdjacent (resolveTiles g tileIds))) ∨
       (∃ g, room.game = Option.some g ∧
         dict (jsToUpper (selWord g tileIds)) = false))) ∧
    (((submitWord room pid tileIds dict now rng).2.1).success = true →
      ∃ g, room.game = Option.some g ∧
        ((submitWord room pid tileIds dict now rng).2.1).payload = Option.some
          { word := jsToUpper (selWord g tileIds),
            points := calculateWordScore (resolveTiles g tileIds)
              (decide (LONG_WORD_THRESHOLD ≤ (selWord g tileIds).length)),
            gems := ((resolveTiles g tileIds).filter (fun t => t.hasGem)).length,
            longWordBonus :=
              decide (LONG_WORD_THRESHOLD ≤ (selWord g tileIds).length) }) := by
  simp only [submitWord]
  cases hg : room.game with
  | none =>
    refine ⟨iff_of_true rfl (Or.inl rfl), ?_⟩
    intro h
    simp [failS] at h
  | some game0 =>
    by_cases hcomp : game0.completed = true
    · simp only [if_pos hcomp]
      refine ⟨iff_of_true rfl (Or.inr (Or.inl ⟨game0, rfl, hcomp⟩)), ?_⟩
      intro h
      simp [failS] at h
    · simp only [if_neg hcomp]
      by_cases hemp : tileIds = []
      · simp only [if_pos hemp]
        refine ⟨iff_of_true rfl (Or.inr (Or.inr (Or.inl hemp))), ?_⟩
        intro h
        simp [failS] at h
      · simp only [if_neg hemp]
        rcases hct : getCurrentTurnPlayer room with ⟨room1, playerOpt⟩
        simp only [hct]
        cases playerOpt with
        | none =>
          dsimp only
          refine ⟨iff_of_true rfl (Or.inr (Or.inr (Or.inr (Or.inl
            (fun p hp => Option.noConfusion hp))))), ?_⟩
          intro h
          simp [failS] at h
        | some player =>
          dsimp only
          by_cases hpid : player.id ≠ pid
          · simp only [if_pos hpid]
            refine ⟨iff_of_true rfl (Or.inr (Or.inr (Or.inr (Or.inl ?_)))), ?_⟩
            · intro p hp
              rw [show p = player from (Option.some.injEq _ _ ▸ hp).symm]
              exact hpid
            · intro h
              simp [failS] at h
          · simp only [if_neg hpid]
            have hpideq : player.id = pid := not_ne_iff.mp hpid
            cases hg1 : room1.game with
            | none =>
              exfalso
              obtain ⟨g1, hsome⟩ := getCurrentTurnPlayer_game_some room game0 hg
              rw [hct] at hsome
              simp only at hsome
              rw [hg1] at hsome
              exact Option.noConfusion hsome
            | some game =>
              have hrel : game.tiles = game0.tiles ∧ game.completed = game0.completed := by
                refine getCurrentTurnPlayer_game_eq room game0 game hg ?_
                rw [hct]
                exact hg1
              have htiles := hrel.1
              have hresg : ((tileIds.map (fun id =>
                  game.tiles.find? (fun t => t.id == id))).filterMap (fun o => o)) =
                  resolveTiles game0 tileIds := by
                rw [resolveTiles_eq]
                simp only [resolveTiles, htiles]
              by_cases hunk : ((tileIds.map (fun id =>
                  game.tiles.find? (fun t => t.id == id))).any (fun o => o.isNone)) = true
              · simp only [if_pos hunk]
                refine ⟨iff_of_true rfl (Or.inr (Or.inr (Or.inr (Or.inr (Or.inl
                  ⟨game0, rfl, Or.inl ?_⟩))))), ?_⟩
                · have := (any_isNone_true_iff game tileIds).mp hunk
                  rw [htiles] at this
                  exact this
                · intro h
                  simp [failS] at h
              · simp only [if_neg hunk]
                have hunk' : ((tileIds.map (fun id =>
                    game.tiles.find? (fun t => t.id == id))).any
                    (fun o => o.isNone)) = false := by
                  cases hu : ((tileIds.map (fun id =>
                      game.tiles.find? (fun t => t.id == id))).any (fun o => o.isNone)) with
                  | false => rfl
                  | true => exact absurd hu hunk
                have hall := (any_isNone_false_iff game tileIds).mp hunk'
                have hall0 : ∀ id ∈ tileIds,
                    (game0.tiles.find? (fun t => t.id == id)).isSome = true := by
                  intro id hid
                  have := hall id hid
                  rw [htiles] at this
                  exact this
                have hids : (resolveTiles game0 tileIds).map TileModel.id = tileIds :=
                  resolveTiles_ids game0 tileIds hall0
                by_cases hval : isValidSelection ((tileIds.map (fun id =>
                    game.tiles.find? (fun t => t.id == id))).filterMap (fun o => o)) = true
                · simp only [hval, Bool.not_true, Bool.false_eq_true, if_false]
                  have hvsel := (isValidSelection_iff _).mp hval
                  rw [hresg] at hvsel
                  by_cases hdict : dict (jsToUpper (((((tileIds.map (fun id =>
                      game.tiles.find? (fun t => t.id == id))).filterMap
                      (fun o => o)).map (fun t => t.letter)).foldl
                      (fun a b => a ++ b) ""))) = true
                  · simp only [hdict, Bool.not_true, Bool.false_eq_true, if_false]
                    have hword : ((((tileIds.map (fun id =>
                        game.tiles.find? (fun t => t.id == id))).filterMap
                        (fun o => o)).map (fun t => t.letter)).foldl
                        (fun a b => a ++ b) "") = selWord game0 tileIds := by
                      rw [hresg]
                      rfl
                    constructor
                    · refine iff_of_false ?_ ?_
                      · rw [submitWordCommit_result]
                        simp
                      · rintro (hc | ⟨g, hgg, hcg⟩ | hc | hc | ⟨g, hgg, hsel⟩ |
                          ⟨g, hgg, hdict'⟩)
                        · exact Option.noConfusion hc
                        · simp only [Option.some.injEq] at hgg
                          subst hgg
                          exact hcomp hcg
                        · exact hemp hc
                        · exact hc player rfl hpideq
                        · simp only [Option.some.injEq] at hgg
                          subst hgg
                          rcases hsel with hsel | hsel | hsel
                          · obtain ⟨id, hid, hfor⟩ := hsel
                            have := (any_isNone_false_iff game tileIds).mp hunk' id hid
                            cases hff : game.tiles.find? (fun t => t.id == id) with
                            | none => rw [hff] at this; exact Bool.noConfusion this
                            | some t =>
                              have htmem : t ∈ game.tiles := List.mem_of_find?_eq_some hff
                              rw [htiles] at htmem
                              exact hfor t htmem
                                (beq_iff_eq.mp (List.find?_some
                                  (p := fun (u : TileModel) => u.id == id) hff))
                          · exact hsel (hids ▸ hvsel.1)
                          · exact hsel hvsel.2
                        · simp only [Option.some.injEq] at hgg
                          subst hgg
                          rw [hword] at hdict
                          rw [hdict'] at hdict
                          exact Bool.noConfusion hdict
                    · intro _
                      refine ⟨game0, rfl, ?_⟩
                      rw [submitWordCommit_result]
                      simp only [Option.some.injEq]
                      rw [hword, hresg]
                  · have hdict' : dict (jsToUpper (((((tileIds.map (fun id =>
                        game.tiles.find? (fun t => t.id == id))).filterMap
                        (fun o => o)).map (fun t => t.letter)).foldl
                        (fun a b => a ++ b) ""))) = false := by
                      cases hd : dict (jsToUpper (((((tileIds.map (fun id =>
                          game.tiles.find? (fun t => t.id == id))).filterMap
                          (fun o => o)).map (fun t => t.letter)).foldl
                          (fun a b => a ++ b) ""))) with
                      | false => rfl
                      | true => exact absurd hd hdict
                    simp only [hdict', Bool.not_false, if_true]
                    refine ⟨iff_of_true rfl (Or.inr (Or.inr (Or.inr (Or.inr (Or.inr
                      ⟨game0, rfl, ?_⟩))))), ?_⟩
                    · have hword : ((((tileIds.map (fun id =>
                          game.tiles.find? (fun t => t.id == id))).filterMap
                          (fun o => o)).map (fun t => t.letter)).foldl
                          (fun a b => a ++ b) "") = selWord game0 tileIds := by
                        rw [hresg]
                        rfl
                      rw [← hword]
                      exact hdict'
                    · intro h
                      simp [failS] at h
                · have hval' : isValidSelection ((tileIds.map (fun id =>
                      game.tiles.find? (fun t => t.id == id))).filterMap
                      (fun o => o)) = false := by
                    cases hv : isValidSelection ((tileIds.map (fun id =>
                        game.tiles.find? (fun t => t.id == id))).filterMap (fun o => o)) with
                    | false => rfl
                    | true => exact absurd hv hval
                  simp only [hval', Bool.not_false, if_true]
                  refine ⟨iff_of_true rfl (Or.inr (Or.inr (Or.inr (Or.inr (Or.inl
                    ⟨game0, rfl, ?_⟩))))), ?_⟩
                  · have hnv : ¬((resolveTiles game0 tileIds).map TileModel.id).Nodup ∨
                        ¬List.Chain' chebAdjacent (resolveTiles game0 tileIds) := by
                      have := (isValidSelection_iff ((tileIds.map (fun id =>
                        game.tiles.find? (fun t => t.id == id))).filterMap (fun o => o)))
                      rw [hval', hresg] at this
                      have hnot : ¬(((resolveTiles game0 tileIds).map TileModel.id).Nodup ∧
                          List.Chain' chebAdjacent (resolveTiles game0 tileIds)) := by
                        intro hc
                        have := this.mpr hc
                        exact Bool.noConfusion this
                      exact not_and_or.mp hnot
                    rcases hnv with hnv | hnv
                    · exact Or.inr (Or.inl (fun hc => hnv (by rw [hids]; exact hc)))
                    · exact Or.inr (Or.inr hnv)
                  · intro h
                    simp [failS] at h

/-- Witness for C5: the theorem evaluated at a concrete successful
submission ("CAT" on the 3-tile board) and at a failing empty selection. -/
theorem C5_submitWord_result_witness :
    ((submitWord roomC5 "p1" ["0-0", "1-0", "2-0"] (fun w => w == "CAT") 0
        (constRng 0)).2.1).payload = Option.some
      { word := "CAT", points := 26, gems := 0, longWordBonus := false } ∧
    ((submitWord roomC5 "p1" [] (fun w => w == "CAT") 0 (constRng 0)).2.1).success =
      false := by
  constructor
  · obtain ⟨g, hgg, hpay⟩ :=
      (C5_submitWord_result roomC5 "p1" ["0-0", "1-0", "2-0"] (fun w => w == "CAT") 0
        (constRng 0)).2 (by decide)
    have hg0 : g = gameC5 :=
      (Option.some.inj (show Option.some gameC5 = Option.some g from hgg)).symm
    subst hg0
    rw [hpay]
    decide
  · exact (C5_submitWord_result roomC5 "p1" [] (fun w => w == "CAT") 0
      (constRng 0)).1.mpr (Or.inr (Or.inr (Or.inl rfl)))

/-! ### Claim C2 -/

/-- Claim C2: a successful `shuffleBoard` (caller exists, non-spectator, at
least 1 gem) permutes the multiset of {letter, hasGem, multiplier} triples
over the tiles (nothing created or destroyed), keeps `roundWordTileId`
unchanged whenever it was set, and, when the word multiplier is enabled,
leaves exactly the tiles whose id equals the (resulting) `roundWordTileId`
carrying `doubleWord` — all others carry `none`.  The id hypotheses are the
board invariant that tile ids are the non-empty strings `"x-y"`. -/
theorem C2_shuffle_permutation (room : Room) (pid : String) (rng : Rng)
    (game : GameState) (hg : room.game = Option.some game)
    (hids : ∀ t ∈ game.tiles, t.id ≠ "")
    (hne : game.tiles ≠ [])
    (hs : ((shuffleBoard room pid rng).2.1).success = true) :
    ∃ game', (shuffleBoard room pid rng).1.game = Option.some game' ∧
      ((game'.tiles.map tileTriple : List (String × Bool × Multiplier)) :
          Multiset (String × Bool × Multiplier)) =
        ((game.tiles.map tileTriple : List (String × Bool × Multiplier)) :
          Multiset (String × Bool × Multiplier)) ∧
      (∀ s, s ≠ "" → game.roundWordTileId = Option.some s →
        game'.roundWordTileId = Option.some s) ∧
      (game.wordMultiplierEnabled = true →
        ∀ t ∈ game'.tiles, (t.wordMultiplier = WordMultiplier.doubleWord ↔
          game'.roundWordTileId = Option.some t.id)) := by
  simp only [shuffleBoard, hg] at hs ⊢
  cases hpi : room.players.findIdx? (fun p => p.id == pid) with
  | none => simp only [hpi, failA] at hs; exact Bool.noConfusion hs
  | some pi =>
    simp only [hpi] at hs ⊢
    cases hpl : room.players.get? pi with
    | none => simp only [hpl, failA] at hs; exact Bool.noConfusion hs
    | some player =>
      simp only [hpl] at hs ⊢
      by_cases hspec : player.isSpectator = true
      · simp only [if_pos hspec, failA] at hs; exact Bool.noConfusion hs
      · simp only [if_neg hspec] at hs ⊢
        by_cases hgem : player.gems < 1
        · simp only [if_pos hgem, failA] at hs; exact Bool.noConfusion hs
        · simp only [if_neg hgem] at hs ⊢
          rcases hsh : shuffleTiles game rng with ⟨game3, rng2⟩
          simp only [hsh]
          refine ⟨game3, rfl, ?_, ?_, ?_⟩
          · rw [Multiset.coe_eq_coe]
            have := shuffleTiles_triple_perm game rng
            rw [hsh] at this
            exact this
          · intro s hsne hsome
            have := shuffleTiles_rwt_of_truthy game rng
              (by rw [hsome]; exact strTruthy_some_of_ne s hsne)
            rw [hsh] at this
            rw [this]
            exact hsome
          · intro hen
            have := shuffleTiles_flag game rng hen hids hne
            rw [hsh] at this
            exact this

/-- Witness for C2: the theorem applied to a concrete successful shuffle. -/
theorem C2_shuffle_permutation_witness :
    ∃ game', (shuffleBoard roomC7 "p1" (constRng 0)).1.game = Option.some game' ∧
      ((game'.tiles.map tileTriple : List (String × Bool × Multiplier)) :
          Multiset (String × Bool × Multiplier)) =
        ((gameC7.tiles.map tileTriple : List (String × Bool × Multiplier)) :
          Multiset (String × Bool × Multiplier)) := by
  obtain ⟨g, h1, h2, _⟩ :=
    C2_shuffle_permutation roomC7 "p1" (constRng 0) gameC7 rfl (by decide) (by decide)
      (by decide)
  exact ⟨g, h1, h2⟩

/-! ### Claim C7 -/

theorem ensurePlayerTurn_not_turn (room : Room) (pid : String) (game : GameState)
    (q : Player) (hg : room.game = Option.some game)
    (hq : room.players.get? game.currentPlayerIndex = Option.some q)
    (hqspec : q.isSpectator = false) (hqne : q.id ≠ pid) :
    ensurePlayerTurn room pid = (room, false) := by
  have hlen : game.currentPlayerIndex < room.players.length := by
    rw [List.get?_eq_getElem?] at hq
    exact (List.getElem?_eq_some.mp hq).1
  have hne0 : ¬room.players.length = 0 := by omega
  have hmem : q ∈ room.players := by
    rw [List.get?_eq_getElem?] at hq
    obtain ⟨h1, h2⟩ := List.getElem?_eq_some.mp hq
    exact h2 ▸ List.getElem_mem h1
  have hactive : hasActivePlayers room = true := by
    unfold hasActivePlayers
    rw [List.any_eq_true]
    exact ⟨q, hmem, by simp [hqspec]⟩
  simp only [ensurePlayerTurn, hg, if_neg hne0, hactive, Bool.not_true, if_false,
    Bool.false_eq_true, hq]
  have hrep : (decide (room.players.length ≤ game.currentPlayerIndex) ||
      q.isSpectator) = false := by
    simp [hqspec]; omega
  rw [hrep]
  simp [hqne]

/-- Claim C7 (amended): for a non-spectator caller with enough gems who is
not the resolved current-turn player, it is the socket handlers
(`game:shuffle`, `game:swap:start`) that reject with the NotYourTurn message
and leave the room unchanged; the engine functions themselves perform no
turn check (see the counterexample). -/
theorem C7_handler_turn_gate (room : Room) (pid : String) (rng : Rng)
    (game : GameState) (p q : Player)
    (hg : room.game = Option.some game)
    (hp : room.players.find? (fun r => r.id == pid) = Option.some p)
    (hpspec : p.isSpectator = false) (hpgems : 3 ≤ p.gems)
    (hq : room.players.get? game.currentPlayerIndex = Option.some q)
    (hqspec : q.isSpectator = false) (hqne : q.id ≠ pid) :
    handleShuffle room pid rng = (room, failA "It is not your turn.", rng) ∧
    handleSwapStart room pid = (room, failA "It is not your turn.") := by
  have hgate := ensurePlayerTurn_not_turn room pid game q hg hq hqspec hqne
  constructor
  · simp only [handleShuffle, hgate, Bool.not_false, if_true]
  · simp only [handleSwapStart, hgate, Bool.not_false, if_true]

/-- Witness for C7: the amended turn gate at a concrete room where Bob calls
out of turn. -/
theorem C7_handler_turn_gate_witness :
    handleShuffle roomC7 "p2" (constRng 0) =
      (roomC7, failA "It is not your turn.", constRng 0) ∧
    handleSwapStart roomC7 "p2" = (roomC7, failA "It is not your turn.") :=
  C7_handler_turn_gate roomC7 "p2" (constRng 0) gameC7 wBob wAlice rfl (by decide)
    (by decide) (by decide) (by decide) (by decide) (by decide)

/-- Counterexample for C7 as stated: the engine operations `shuffleBoard` and
`requestSwapMode` invoked by an off-turn non-spectator player with enough
gems succeed (no NotYourTurn failure) and mutate the room. -/
theorem C7_counterexample :
    (shuffleBoard roomC7 "p2" (constRng 0)).2.1.success = true ∧
    (requestSwapMode roomC7 "p2").2.success = true ∧
    (shuffleBoard roomC7 "p2" (constRng 0)).1 ≠ roomC7 ∧
    (requestSwapMode roomC7 "p2").1 ≠ roomC7 := by decide

/-! ### Claim C10 -/

/-- Claim C10 (amended): once validation passes, `applySwap` succeeds for
every letter argument and deducts the 3 gems; a non-empty input whose
trimmed-uppercased first character is not in the alphabet is replaced by a
random alphabet letter, but an input that trims to the empty string is kept
as-is, setting the tile letter to `""` (JS `LETTERS.includes("")` is true),
not to a random letter. -/
theorem C10_applySwap_any_letter (room : Room) (pid tid letter : String) (rng : Rng)
    (game : GameState) (pi ti : Nat) (player : Player)
    (hg : room.game = Option.some game)
    (hpi : room.players.findIdx? (fun p => p.id == pid) = Option.some pi)
    (hpl : room.players.get? pi = Option.some player)
    (hspec : player.isSpectator = false)
    (hmode : game.swapModePlayerId = Option.some pid)
    (hgem : 3 ≤ player.gems)
    (hti : game.tiles.findIdx? (fun t => t.id == tid) = Option.some ti) :
    (applySwap room pid tid letter rng).2.1.success = true ∧
    (applySwap room pid tid letter rng).1.players =
      room.players.set pi { player with gems := player.gems - 3 } ∧
    (∀ game' t', (applySwap room pid tid letter rng).1.game = Option.some game' →
      game'.tiles.get? ti = Option.some t' →
      (jsToUpper (jsCharAt0 (jsTrim letter)) = "" → t'.letter = "") ∧
      (jsIncludes LETTERS (jsToUpper (jsCharAt0 (jsTrim letter))) = false →
        ∃ c ∈ LETTERS.data, t'.letter = String.mk [c])) := by
  have hnot : ¬game.swapModePlayerId ≠ Option.some pid := by rw [hmode]; simp
  have hgem' : ¬player.gems < 3 := by omega
  obtain ⟨hlt, htidp, _⟩ := List.findIdx?_eq_some_iff_getElem.mp hti
  simp only [applySwap, hg, hpi, hpl, if_neg (by simp [hspec] : ¬player.isSpectator = true),
    if_neg hnot, if_neg hgem', hti]
  refine ⟨rfl, trivial, ?_⟩
  intro game' t' hgame' ht'
  simp only [Option.some.injEq] at hgame'
  subst hgame'
  rw [List.get?_eq_getElem?, List.getElem?_map, ← List.get?_eq_getElem?,
    listModify_get?, if_pos rfl, List.get?_eq_getElem?, List.getElem?_eq_getElem hlt] at ht'
  simp only [Option.map_some', Option.some.injEq] at ht'
  subst ht'
  constructor
  · intro hemp
    show (normalizeLetter letter rng).1 = ""
    simp only [normalizeLetter, hemp]
    rw [if_pos (by decide : jsIncludes LETTERS "" = true)]
  · intro hninc
    show ∃ c ∈ LETTERS.data, (normalizeLetter letter rng).1 = String.mk [c]
    simp only [normalizeLetter, hninc]
    rw [if_neg (by simp : ¬(false = true))]
    exact randomLetter_mem rng

/-- Witness for C10: the amended theorem at a concrete swap with the digit
`"5"` as the letter argument. -/
theorem C10_applySwap_any_letter_witness :
    (applySwap roomC1 "p1" "0-0" "5" (constRng 0)).2.1.success = true ∧
    (applySwap roomC1 "p1" "0-0" "5" (constRng 0)).1.players =
      roomC1.players.set 0 { wAlice with gems := wAlice.gems - 3 } := by
  obtain ⟨h1, h2, _⟩ :=
    C10_applySwap_any_letter roomC1 "p1" "0-0" "5" (constRng 0) gameC1 0 0 wAlice rfl
      (by decide) (by decide) (by decide) (by decide) (by decide) (by decide)
  exact ⟨h1, h2⟩

/-- Counterexample for C10 as stated: with the empty-string letter the swap
succeeds but the tile letter becomes `""`, which is not a letter of the
alphabet — it is not "set to a randomly chosen letter of the alphabet". -/
theorem C10_counterexample :
    (applySwap roomC1 "p1" "0-0" "" (constRng 0)).2.1.success = true ∧
    ((applySwap roomC1 "p1" "0-0" "" (constRng 0)).1.game.map
      (fun g => g.tiles.map (fun t => t.letter))) = Option.some ["", "A", "T"] ∧
    (∀ c ∈ LETTERS.data, "" ≠ String.mk [c]) := by decide

/-! ### Claim C4 -/

/-- Claim C4: for every selection of tiles, `calculateWordScore` (with the
long-word flag computed from the concatenated word as `submitWord` does)
equals the spec formula: sum of base letter value times the letter
multiplier, doubled when any selected tile carries `doubleWord`, plus a flat
bonus of 10 (not doubled) when the word length is at least 6; in particular
the C(doubleLetter, 5) A(1) T(2) selection with one tile flagged
`doubleWord` scores (10+1+2)*2 = 26. -/
theorem C4_word_score (tiles : List TileModel) :
    calculateWordScore tiles (decide (LONG_WORD_THRESHOLD ≤ (wordOfTiles tiles).length)) =
      specWordScore tiles ∧
    calculateWordScore catTiles false = 26 := by
  constructor
  · simp only [calculateWordScore, specWordScore, LONG_WORD_THRESHOLD, LONG_WORD_BONUS,
      List.sum_eq_foldl, List.foldl_map]
    by_cases hdw : tiles.any (fun t => t.wordMultiplier == WordMultiplier.doubleWord) <;>
      by_cases hlen : 6 ≤ (wordOfTiles tiles).length <;>
        simp [hdw, hlen, mul_comm]
  · decide

/-! ### Lemmas and claim C9: board generation invariants -/

theorem alphaStr_normalize (s : String) (h : alphaStr s) :
    normalizeLetterKey s = s := by
  obtain ⟨c, hc, rfl⟩ := h
  have hall : ∀ c ∈ LETTERS.data, normalizeLetterKey (String.mk [c]) = String.mk [c] := by
    decide
  exact hall c hc

theorem alphaStr_ne_empty (s : String) (h : alphaStr s) : s ≠ "" := by
  obtain ⟨c, hc, rfl⟩ := h
  have hall : ∀ c ∈ LETTERS.data, String.mk [c] ≠ "" := by decide
  exact hall c hc

theorem mapSet_of_any (bag : Bag) (k : String) (v : Int)
    (h : bag.any (fun e => e.1 = k) = true) :
    mapSet bag k v = bag.map (fun e => if e.1 = k then (k, v) else e) := by
  unfold mapSet
  rw [if_pos h]

theorem mapSet_of_not_any (bag : Bag) (k : String) (v : Int)
    (h : bag.any (fun e => e.1 = k) = false) :
    mapSet bag k v = bag ++ [(k, v)] := by
  unfold mapSet
  rw [h]
  simp

theorem vowelTotal_cons (e : String × Int) (l : Bag) :
    vowelTotal (e :: l) = (if isVowel e.1 then e.2 else 0) + vowelTotal l := by
  unfold vowelTotal
  rw [List.filter_cons]
  by_cases h : isVowel e.1
  · rw [if_pos h, if_pos h, List.map_cons, List.sum_cons]
  · rw [if_neg h, if_neg h, zero_add]

theorem vowelTotal_append_one (bag : Bag) (k : String) (v : Int) :
    vowelTotal (bag ++ [(k, v)]) = vowelTotal bag + (if isVowel k then v else 0) := by
  unfold vowelTotal
  rw [List.filter_append, List.map_append, List.sum_append]
  congr 1
  rw [List.filter_cons]
  by_cases h : isVowel k
  · rw [if_pos h, if_pos h]
    simp
  · rw [if_neg h, if_neg h]
    rfl

theorem vowelTotal_set (bag : Bag) (k : String) (v c : Int)
    (hnd : (bag.map Prod.fst).Nodup) (hmem : (k, c) ∈ bag) :
    vowelTotal (mapSet bag k v) =
      vowelTotal bag + (if isVowel k then v - c else 0) := by
  induction bag with
  | nil => cases hmem
  | cons e rest ih =>
    simp only [List.map_cons, List.nodup_cons] at hnd
    have hany : (e :: rest).any (fun x => decide (x.1 = k)) = true := by
      rw [List.any_eq_true]
      exact ⟨(k, c), hmem, by simp⟩
    rw [mapSet_of_any _ _ _ hany, List.map_cons]
    rcases List.mem_cons.mp hmem with he | hrest
    · have he' : e = (k, c) := he.symm
      subst he'
      rw [if_pos (by rfl)]
      have hkn : k ∉ rest.map Prod.fst := hnd.1
      have hmap : rest.map (fun x => if x.1 = k then (k, v) else x) = rest := by
        rw [show rest.map (fun x => if x.1 = k then (k, v) else x)
            = rest.map (fun x => x) from
          List.map_congr_left (fun x hx => by
            have hxk : ¬(x.1 = k) := fun hc => hkn (hc ▸ List.mem_map.mpr ⟨x, hx, rfl⟩)
            rw [if_neg hxk])]
        exact List.map_id' rest
      rw [hmap, vowelTotal_cons, vowelTotal_cons]
      by_cases hv : isVowel k
      · rw [if_pos hv, if_pos hv, if_pos hv]
        ring
      · rw [if_neg hv, if_neg hv, if_neg hv]
        ring
    · have hek : ¬(e.1 = k) := by
        intro hc
        exact hnd.1 (hc ▸ List.mem_map.mpr ⟨(k, c), hrest, rfl⟩)
      rw [if_neg hek]
      have hanyr : rest.any (fun x => decide (x.1 = k)) = true := by
        rw [List.any_eq_true]
        exact ⟨(k, c), hrest, by simp⟩
      have hrw : rest.map (fun x => if x.1 = k then (k, v) else x) = mapSet rest k v :=
        (mapSet_of_any rest k v hanyr).symm
      rw [hrw, vowelTotal_cons, vowelTotal_cons, ih hnd.2 hrest]
      ring

theorem mapSet_keys_of_any (bag : Bag) (k : String) (v : Int)
    (h : bag.any (fun e => e.1 = k) = true) :
    (mapSet bag k v).map Prod.fst = bag.map Prod.fst := by
  rw [mapSet_of_any _ _ _ h, List.map_map]
  apply List.map_congr_left
  intro e _
  by_cases he : e.1 = k
  · simp only [Function.comp, if_pos he]
    exact he.symm
  · simp only [Function.comp, if_neg he]

theorem bagWF_mapSet_mem (bag : Bag) (k : String) (v c : Int)
    (hwf : bagWF bag) (hmem : (k, c) ∈ bag) (hv : 0 ≤ v) :
    bagWF (mapSet bag k v) := by
  have hany : bag.any (fun e => decide (e.1 = k)) = true := by
    rw [List.any_eq_true]
    exact ⟨(k, c), hmem, by simp⟩
  constructor
  · intro e he
    rw [mapSet_of_any _ _ _ hany] at he
    obtain ⟨u, hu, heq⟩ := List.mem_map.mp he
    by_cases huk : u.1 = k
    · rw [if_pos huk] at heq
      subst heq
      exact ⟨(hwf.1 (k, c) hmem).1, hv⟩
    · rw [if_neg huk] at heq
      subst heq
      exact hwf.1 u hu
  · rw [mapSet_keys_of_any _ _ _ hany]
    exact hwf.2

theorem mapGet_eq_none_of_not_any (bag : Bag) (k : String)
    (h : bag.any (fun e => e.1 = k) = false) :
    mapGet bag k = Option.none := by
  unfold mapGet
  have hfind : bag.find? (fun e => e.1 = k) = Option.none := by
    rw [List.find?_eq_none]
    intro e he hpe
    have : bag.any (fun e => decide (e.1 = k)) = true := List.any_eq_true.mpr ⟨e, he, hpe⟩
    rw [h] at this
    exact Bool.noConfusion this
  rw [hfind]
  rfl

theorem mem_of_mapGet_some (bag : Bag) (k : String) (c : Int)
    (h : mapGet bag k = Option.some c) : (k, c) ∈ bag := by
  unfold mapGet at h
  cases hf : bag.find? (fun e => e.1 = k) with
  | none =>
    rw [hf] at h
    exact Option.noConfusion h
  | some e =>
    rw [hf] at h
    simp only [Option.map_some', Option.some.injEq] at h
    have hpe := List.find?_some (p := fun u : String × Int => decide (u.1 = k)) hf
    have he1 : e.1 = k := of_decide_eq_true hpe
    have hmem := List.mem_of_find?_eq_some hf
    have : (k, c) = e := by rw [← he1, ← h]
    exact this ▸ hmem

theorem returnLetterToBag_spec (bag : Bag) (letter : String)
    (hwf : bagWF bag) (halpha : alphaStr letter) :
    bagWF (returnLetterToBag bag letter) ∧
      vowelTotal bag ≤ vowelTotal (returnLetterToBag bag letter) := by
  have hkey : normalizeLetterKey letter = letter := alphaStr_normalize letter halpha
  have hne : letter ≠ "" := alphaStr_ne_empty letter halpha
  unfold returnLetterToBag
  rw [hkey, if_neg hne]
  by_cases hany : bag.any (fun e => e.1 = letter) = true
  · obtain ⟨e, he, hpe⟩ := List.any_eq_true.mp hany
    have he1 : e.1 = letter := of_decide_eq_true hpe
    have hmem : (letter, e.2) ∈ bag := by
      have : (letter, e.2) = e := by rw [← he1]
      exact this ▸ he
    have hget : mapGet bag letter = Option.some e.2 :=
      mapGet_of_nodup bag letter e.2 hwf.2 hmem
    rw [hget]
    simp only [Option.getD_some]
    constructor
    · exact bagWF_mapSet_mem bag letter (e.2 + 1) e.2 hwf hmem
        (by have := (hwf.1 e he).2; omega)
    · rw [vowelTotal_set bag letter (e.2 + 1) e.2 hwf.2 hmem]
      by_cases hv : isVowel letter
      · rw [if_pos hv]; omega
      · rw [if_neg hv]; omega
  · have hany' : bag.any (fun e => e.1 = letter) = false :=
      Bool.eq_false_iff.mpr hany
    have hget : mapGet bag letter = Option.none :=
      mapGet_eq_none_of_not_any bag letter hany'
    rw [hget]
    simp only [Option.getD_none]
    rw [mapSet_of_not_any bag letter _ hany']
    refine ⟨⟨?_, ?_⟩, ?_⟩
    · intro e he
      rcases List.mem_append.mp he with h | h
      · exact hwf.1 e h
      · have : e = (letter, 0 + 1) := List.mem_singleton.mp h
        subst this
        exact ⟨halpha, by omega⟩
    · rw [List.map_append, List.nodup_append]
      refine ⟨hwf.2, List.nodup_singleton _, ?_⟩
      intro a ha hb
      have hax : a = letter := List.mem_singleton.mp hb
      subst hax
      obtain ⟨e, he, hfst⟩ := List.mem_map.mp ha
      have : bag.any (fun x => decide (x.1 = a)) = true :=
        List.any_eq_true.mpr ⟨e, he, by simp [hfst]⟩
      rw [hany'] at this
      exact Bool.noConfusion this
    · rw [vowelTotal_append_one]
      by_cases hv : isVowel letter
      · rw [if_pos hv]; omega
      · rw [if_neg hv]; omega

theorem consumeLetterFromBag_wf (bag : Bag) (letter : String) (hwf : bagWF bag) :
    bagWF (consumeLetterFromBag bag letter).1 ∧
      vowelTotal bag - 1 ≤ vowelTotal (consumeLetterFromBag bag letter).1 := by
  cases hget : mapGet bag (normalizeLetterKey letter) with
  | none =>
    simp only [consumeLetterFromBag, hget]
    exact ⟨hwf, by omega⟩
  | some c =>
    by_cases hc : c ≤ 0
    · simp only [consumeLetterFromBag, hget, if_pos hc]
      exact ⟨hwf, by omega⟩
    · simp only [consumeLetterFromBag, hget, if_neg hc]
      have hmem : (normalizeLetterKey letter, c) ∈ bag := mem_of_mapGet_some _ _ _ hget
      constructor
      · exact bagWF_mapSet_mem bag _ (c - 1) c hwf hmem (by omega)
      · rw [vowelTotal_set bag _ (c - 1) c hwf.2 hmem]
        by_cases hv : isVowel (normalizeLetterKey letter)
        · rw [if_pos hv]; omega
        · rw [if_neg hv]; omega

theorem drawLetterFromBag_weighted (bag : Bag) (filter : Option (String → Bool))
    (rng : Rng) (hpos : 0 < bagFilteredTotal bag filter)
    (hne : bagFilteredEntries bag filter ≠ []) :
    ∃ letter count, (letter, count) ∈ bagFilteredEntries bag filter ∧
      (drawLetterFromBag bag filter rng).1 = (letter, true) ∧
      (drawLetterFromBag bag filter rng).2.1 = (consumeLetterFromBag bag letter).1 := by
  simp only [drawLetterFromBag, if_pos (And.intro hpos hne)]
  rcases hb : rng.below (bagFilteredTotal bag filter).toNat with ⟨tN, rng'⟩
  simp only [hb]
  have htN : tN < (bagFilteredTotal bag filter).toNat := by
    have h0 : (bagFilteredTotal bag filter).toNat ≠ 0 := by omega
    have := Rng_below_lt rng (bagFilteredTotal bag filter).toNat h0
    rw [hb] at this
    exact this
  have hboundZ : (Int.ofNat tN) <
      0 + ((bagFilteredEntries bag filter).map Prod.snd).sum := by
    rw [zero_add, ← bagFilteredTotal_eq_sum, Int.ofNat_eq_coe]
    omega
  obtain ⟨letter, count, hmem, heq⟩ :=
    drawLoop_some bag (Int.ofNat tN) (bagFilteredEntries bag filter) 0
      (bagFilteredEntries_pos bag filter) (by rw [Int.ofNat_eq_coe]; omega) hboundZ
  rw [heq]
  exact ⟨letter, count, hmem, rfl, rfl⟩

theorem drawLetterFromBag_wf (bag : Bag) (filter : Option (String → Bool))
    (rng : Rng) (hwf : bagWF bag) :
    alphaStr (drawLetterFromBag bag filter rng).1.1 ∧
      bagWF (drawLetterFromBag bag filter rng).2.1 ∧
      vowelTotal bag - 1 ≤ vowelTotal (drawLetterFromBag bag filter rng).2.1 := by
  by_cases hc : 0 < bagFilteredTotal bag filter ∧ bagFilteredEntries bag filter ≠ []
  · obtain ⟨letter, count, hmem, h1, h2⟩ :=
      drawLetterFromBag_weighted bag filter rng hc.1 hc.2
    have hmemBag : (letter, count) ∈ bag := bagFilteredEntries_mem bag filter _ hmem
    have halpha : alphaStr letter := (hwf.1 (letter, count) hmemBag).1
    have hcons := consumeLetterFromBag_wf bag letter hwf
    refine ⟨?_, ?_, ?_⟩
    · rw [h1]
      exact halpha
    · rw [h2]
      exact hcons.1
    · rw [h2]
      exact hcons.2
  · simp only [drawLetterFromBag, if_neg hc]
    rcases hrl : randomLetter rng with ⟨l, r⟩
    simp only [hrl]
    refine ⟨?_, hwf, by omega⟩
    have := randomLetter_mem rng
    rw [hrl] at this
    exact this

theorem bagFilteredEntries_cons_some (e : String × Int) (rest : Bag)
    (f : String → Bool) :
    bagFilteredEntries (e :: rest) (Option.some f) =
      if e.2 ≤ 0 then bagFilteredEntries rest (Option.some f)
      else if f e.1 then e :: bagFilteredEntries rest (Option.some f)
      else bagFilteredEntries rest (Option.some f) := by
  unfold bagFilteredEntries
  rw [List.filter_cons]
  by_cases hz : e.2 ≤ 0
  · simp [hz]
  · by_cases hf : f e.1
    · simp [hz, hf]
    · simp [hz, hf]

theorem vowelTotal_le_filtered (bag : Bag) (hpos : ∀ e ∈ bag, 0 ≤ e.2) :
    vowelTotal bag ≤ bagFilteredTotal bag (Option.some isVowel) := by
  rw [bagFilteredTotal_eq_sum]
  induction bag with
  | nil => simp [vowelTotal, bagFilteredEntries]
  | cons e rest ih =>
    have hrest := ih (fun x hx => hpos x (List.mem_cons_of_mem _ hx))
    have he2 : 0 ≤ e.2 := hpos e (List.mem_cons_self _ _)
    rw [vowelTotal_cons, bagFilteredEntries_cons_some]
    by_cases hz : e.2 ≤ 0
    · rw [if_pos hz]
      have hz0 : e.2 = 0 := le_antisymm hz he2
      by_cases hv : isVowel e.1
      · rw [if_pos hv, hz0]
        omega
      · rw [if_neg hv]
        omega
    · rw [if_neg hz]
      by_cases hv : isVowel e.1
      · rw [if_pos hv, if_pos hv, List.map_cons, List.sum_cons]
        omega
      · rw [if_neg hv, if_neg hv]
        omega

theorem drawLetterFromBag_vowel (bag : Bag) (rng : Rng)
    (hwf : bagWF bag) (hv : 0 < vowelTotal bag) :
    isVowel (drawLetterFromBag bag (Option.some isVowel) rng).1.1 = true := by
  have hpos : 0 < bagFilteredTotal bag (Option.some isVowel) := by
    have := vowelTotal_le_filtered bag (fun e he => (hwf.1 e he).2)
    omega
  have hne : bagFilteredEntries bag (Option.some isVowel) ≠ [] := by
    intro hnil
    rw [bagFilteredTotal_nonpos_of_nil bag _ hnil] at hpos
    omega
  obtain ⟨letter, count, hmem, h1, h2⟩ :=
    drawLetterFromBag_weighted bag (Option.some isVowel) rng hpos hne
  rw [h1]
  exact bagFilteredEntries_filter_true bag isVowel _ hmem

theorem foldl_listModify_map {α β : Type} (is : List Nat) (l : List α)
    (f : α → α) (g : α → β) (hfg : ∀ a, g (f a) = g a) :
    (is.foldl (fun ts i => listModify ts i f) l).map g = l.map g := by
  induction is generalizing l with
  | nil => rfl
  | cons i rest ih =>
    rw [List.foldl_cons, ih, listModify_map_of_eq _ _ _ _ hfg]

theorem countP_not_eq_sub {α : Type} (p : α → Bool) (l : List α) :
    l.countP (fun a => !(p a)) = l.length - l.countP p := by
  induction l with
  | nil => rfl
  | cons a t ih =>
    rw [List.countP_cons, List.countP_cons, List.length_cons, ih]
    have hle := List.countP_le_length p (l := t)
    by_cases hp : p a
    · rw [if_pos hp, if_neg (by simp [hp])]
      omega
    · rw [if_neg hp, if_pos (by simp [hp])]
      omega

theorem length_filter_range_elim {α : Type} (p : α → Bool) (l : List α) :
    ((List.range l.length).filter (fun i => (l.get? i).elim false p)).length =
      l.countP p := by
  induction l with
  | nil => rfl
  | cons a t ih =>
    rw [List.length_cons, List.range_succ_eq_map, List.filter_cons, List.countP_cons]
    have hcomp : List.filter (fun i => (((a :: t).get? i).elim false p))
        (List.map Nat.succ (List.range t.length)) =
        List.map Nat.succ (List.filter (fun i => ((t.get? i).elim false p))
          (List.range t.length)) := by
      rw [List.filter_map]
      rfl
    by_cases hp : p a
    · rw [if_pos (show (((a :: t).get? 0).elim false p) = true from hp)]
      rw [if_pos hp, List.length_cons, hcomp, List.length_map, ih]
    · rw [if_neg (show ¬((((a :: t).get? 0).elim false p) = true) from hp)]
      rw [if_neg hp, hcomp, List.length_map, ih]
      omega

theorem length_filter_range_get {α : Type} (p : α → Bool) (l : List α)
    (q : Nat → Bool) (hq : ∀ i, q i = (l.get? i).elim false p) :
    ((List.range l.length).filter q).length = l.countP p := by
  rw [List.filter_congr (fun i _ => hq i)]
  exact length_filter_range_elim p l

theorem nonVowelIdxs_length (tiles : List TileModel) :
    (nonVowelIdxs tiles).length =
      tiles.length - tiles.countP (fun t => isVowel t.letter) := by
  unfold nonVowelIdxs
  refine Eq.trans
    (length_filter_range_get (fun t : TileModel => !(isVowel t.letter)) tiles _ ?_)
    (countP_not_eq_sub _ tiles)
  intro i
  cases hg : tiles.get? i
  · simp [hg]
  · simp [hg]

theorem nonVowelIdxs_mem (tiles : List TileModel) (i : Nat)
    (h : i ∈ nonVowelIdxs tiles) :
    ∃ t, tiles.get? i = Option.some t ∧ isVowel t.letter = false := by
  unfold nonVowelIdxs at h
  have hp := (List.mem_filter.mp h).2
  cases hg : tiles.get? i with
  | none =>
    rw [hg] at hp
    exact Bool.noConfusion hp
  | some t =>
    rw [hg] at hp
    have hb : (!(isVowel t.letter)) = true := hp
    refine ⟨t, rfl, ?_⟩
    cases hv : isVowel t.letter
    · rfl
    · rw [hv] at hb
      exact Bool.noConfusion hb

theorem nonVowelIdxs_nodup (tiles : List TileModel) : (nonVowelIdxs tiles).Nodup :=
  List.Nodup.filter _ (List.nodup_range _)

theorem countP_set_true {α : Type} (p : α → Bool) (l : List α) (i : Nat) (a b : α)
    (hg : l.get? i = Option.some a) (ha : p a = false) (hb : p b = true) :
    (l.set i b).countP p = l.countP p + 1 := by
  rw [List.get?_eq_getElem?] at hg
  obtain ⟨hi, hgi⟩ := List.getElem?_eq_some.mp hg
  rw [List.countP_set p l i b hi, hgi, ha, hb]
  simp

theorem map_set_eq {α β : Type} (l : List α) (i : Nat) (a b : α) (g : α → β)
    (hg : l.get? i = Option.some a) (heq : g b = g a) :
    (l.set i b).map g = l.map g := by
  rw [List.map_set, heq]
  apply set_self_of_get?
  rw [List.get?_eq_getElem?, List.getElem?_map, ← List.get?_eq_getElem?, hg]
  rfl

theorem forall_letter_of_map_eq (a b : List TileModel)
    (h : a.map (fun t => (t.id, t.letter)) = b.map (fun t => (t.id, t.letter)))
    (hb : ∀ t ∈ b, alphaStr t.letter) : ∀ t ∈ a, alphaStr t.letter := by
  intro t ht
  have hmem : (t.id, t.letter) ∈ a.map (fun t => (t.id, t.letter)) :=
    List.mem_map.mpr ⟨t, ht, rfl⟩
  rw [h] at hmem
  obtain ⟨u, hu, hequ⟩ := List.mem_map.mp hmem
  have hlet : u.letter = t.letter := congrArg Prod.snd hequ
  rw [← hlet]
  exact hb u hu

theorem countP_vowel_of_map_eq (a b : List TileModel)
    (h : a.map (fun t => (t.id, t.letter)) = b.map (fun t => (t.id, t.letter))) :
    a.countP (fun t => isVowel t.letter) = b.countP (fun t => isVowel t.letter) := by
  have ha : a.countP (fun t => isVowel t.letter) =
      (a.map (fun t => (t.id, t.letter))).countP (fun pr => isVowel pr.2) := by
    rw [List.countP_map]
    rfl
  have hb2 : b.countP (fun t => isVowel t.letter) =
      (b.map (fun t => (t.id, t.letter))).countP (fun pr => isVowel pr.2) := by
    rw [List.countP_map]
    rfl
  rw [ha, hb2, h]

theorem map_id_of_map_pair_eq (a b : List TileModel)
    (h : a.map (fun t => (t.id, t.letter)) = b.map (fun t => (t.id, t.letter))) :
    a.map TileModel.id = b.map TileModel.id := by
  have h2 := congrArg (List.map Prod.fst) h
  rw [List.map_map, List.map_map] at h2
  exact h2

theorem topUpGems_pair (tiles : List TileModel) (target : Nat) (rng : Rng) :
    (topUpGems tiles target rng).1.map (fun t => (t.id, t.letter)) =
      tiles.map (fun t => (t.id, t.letter)) := by
  simp only [topUpGems]
  by_cases h0 : tiles.length = 0
  · rw [if_pos h0]
  · rw [if_neg h0]
    by_cases h1 : min target tiles.length ≤ tiles.countP (fun t => t.hasGem)
    · rw [if_pos h1]
    · rw [if_neg h1]
      by_cases h2 : gemlessIdxs tiles = []
      · rw [if_pos h2]
      · rw [if_neg h2]
        rcases hs : shuffleArray (gemlessIdxs tiles) rng with ⟨pool', rng'⟩
        simp only [hs]
        exact foldl_listModify_map _ _ _ _ (fun a => rfl)

theorem assignRandomGems_pair (tiles : List TileModel) (target : Nat) (rng : Rng) :
    (assignRandomGems tiles target rng).1.map (fun t => (t.id, t.letter)) =
      tiles.map (fun t => (t.id, t.letter)) := by
  unfold assignRandomGems
  rw [topUpGems_pair, List.map_map]
  apply List.map_congr_left
  intro t _
  by_cases hg : t.hasGem
  · simp only [Function.comp, if_pos hg]
  · simp only [Function.comp, if_neg hg]

theorem vowelRedrawStep_eq (tiles : List TileModel) (bag : Bag) (rng : Rng) (i : Nat)
    (t : TileModel) (hg : tiles.get? i = Option.some t) :
    vowelRedrawStep (tiles, bag, rng) i =
      (tiles.set i { t with letter :=
          (drawLetterFromBag (returnLetterToBag bag t.letter)
            (Option.some isVowel) rng).1.1 },
       (drawLetterFromBag (returnLetterToBag bag t.letter)
         (Option.some isVowel) rng).2.1,
       (drawLetterFromBag (returnLetterToBag bag t.letter)
         (Option.some isVowel) rng).2.2) := by
  simp only [vowelRedrawStep, hg]

theorem vowelRedraw_fold (chosen : List Nat) :
    ∀ (tiles : List TileModel) (bag : Bag) (rng : Rng),
    chosen.Nodup →
    (∀ i ∈ chosen, ∃ t, tiles.get? i = Option.some t ∧ isVowel t.letter = false) →
    bagWF bag →
    (∀ t ∈ tiles, alphaStr t.letter) →
    Int.ofNat chosen.length ≤ vowelTotal bag →
    (chosen.foldl vowelRedrawStep (tiles, bag, rng)).1.map TileModel.id =
        tiles.map TileModel.id ∧
      (chosen.foldl vowelRedrawStep (tiles, bag, rng)).1.countP
          (fun t => isVowel t.letter) =
        tiles.countP (fun t => isVowel t.letter) + chosen.length := by
  induction chosen with
  | nil =>
    intro tiles bag rng _ _ _ _ _
    exact ⟨rfl, rfl⟩
  | cons i rest ih =>
    intro tiles bag rng hnd hmem hwf hletters hvt
    obtain ⟨hi, hndr⟩ := List.nodup_cons.mp hnd
    obtain ⟨t, hg, hnv⟩ := hmem i (List.mem_cons_self _ _)
    have htmem : t ∈ tiles := by
      rw [List.get?_eq_getElem?] at hg
      obtain ⟨h1, h2⟩ := List.getElem?_eq_some.mp hg
      rw [← h2]
      exact List.getElem_mem h1
    have halpha : alphaStr t.letter := hletters t htmem
    have hret := returnLetterToBag_spec bag t.letter hwf halpha
    have hvt1 : 0 < vowelTotal (returnLetterToBag bag t.letter) := by
      simp only [List.length_cons, Int.ofNat_eq_coe] at hvt
      have h2 := hret.2
      omega
    have hdraw := drawLetterFromBag_wf (returnLetterToBag bag t.letter)
      (Option.some isVowel) rng hret.1
    have hvowel := drawLetterFromBag_vowel (returnLetterToBag bag t.letter) rng
      hret.1 hvt1
    rw [List.foldl_cons, vowelRedrawStep_eq tiles bag rng i t hg]
    rcases hd : drawLetterFromBag (returnLetterToBag bag t.letter)
        (Option.some isVowel) rng with ⟨res, B2, R2⟩
    rw [hd] at hdraw hvowel
    simp only [hd]
    have halphaL : alphaStr res.1 := hdraw.1
    have hwf2 : bagWF B2 := hdraw.2.1
    have hvtB2 : vowelTotal (returnLetterToBag bag t.letter) - 1 ≤ vowelTotal B2 :=
      hdraw.2.2
    have hvL : isVowel res.1 = true := hvowel
    have hmem' : ∀ j ∈ rest, ∃ u,
        (tiles.set i { t with letter := res.1 }).get? j = Option.some u ∧
        isVowel u.letter = false := by
      intro j hj
      obtain ⟨u, hu, hnu⟩ := hmem j (List.mem_cons_of_mem _ hj)
      have hij : i ≠ j := fun hc => hi (hc ▸ hj)
      refine ⟨u, ?_, hnu⟩
      rw [List.get?_set_ne _ _ hij]
      exact hu
    have hletters' : ∀ u ∈ tiles.set i { t with letter := res.1 },
        alphaStr u.letter := by
      intro u hu
      rcases List.mem_or_eq_of_mem_set hu with h | h
      · exact hletters u h
      · rw [h]
        exact halphaL
    have hvt' : Int.ofNat rest.length ≤ vowelTotal B2 := by
      simp only [List.length_cons, Int.ofNat_eq_coe] at hvt ⊢
      have h2 := hret.2
      omega
    obtain ⟨hids, hcount⟩ := ih _ _ R2 hndr hmem' hwf2 hletters' hvt'
    constructor
    · rw [hids]
      exact map_set_eq tiles i t _ TileModel.id hg rfl
    · rw [hcount]
      have hb2 : isVowel ({ t with letter := res.1 } : TileModel).letter = true := hvL
      rw [countP_set_true (fun u => isVowel u.letter) tiles i t
        ({ t with letter := res.1 }) hg hnv hb2]
      rw [List.length_cons]
      omega

theorem ensureMinimumVowels_spec (tiles : List TileModel) (target : Nat) (bag : Bag)
    (rng : Rng) (hwf : bagWF bag) (hletters : ∀ t ∈ tiles, alphaStr t.letter)
    (hvt : Int.ofNat target ≤ vowelTotal bag) :
    (ensureMinimumVowels tiles target (Option.some bag) rng).1.map TileModel.id =
        tiles.map TileModel.id ∧
      min target tiles.length ≤
        (ensureMinimumVowels tiles target (Option.some bag) rng).1.countP
          (fun t => isVowel t.letter) := by
  simp only [ensureMinimumVowels]
  by_cases h0 : tiles.length = 0
  · rw [if_pos h0]
    exact ⟨rfl, by omega⟩
  · rw [if_neg h0]
    by_cases h1 : min target tiles.length ≤ tiles.countP (fun t => isVowel t.letter)
    · rw [if_pos h1]
      exact ⟨rfl, h1⟩
    · rw [if_neg h1]
      by_cases h2 : nonVowelIdxs tiles = []
      · exfalso
        have hlen := nonVowelIdxs_length tiles
        rw [h2] at hlen
        have hc := List.countP_le_length (fun t => isVowel t.letter) (l := tiles)
        simp only [List.length_nil] at hlen
        omega
      · rw [if_neg h2]
        rcases hs : shuffleArray (nonVowelIdxs tiles) rng with ⟨pool', rng'⟩
        simp only [hs]
        have hperm : pool'.Perm (nonVowelIdxs tiles) := by
          have h := shuffleArray_perm (nonVowelIdxs tiles) rng
          rw [hs] at h
          exact h
        have hpoolnd : pool'.Nodup := hperm.nodup_iff.mpr (nonVowelIdxs_nodup tiles)
        have hpoollen : pool'.length = (nonVowelIdxs tiles).length := hperm.length_eq
        have hlenNV := nonVowelIdxs_length tiles
        have hcountle := List.countP_le_length (fun t => isVowel t.letter) (l := tiles)
        have hchnd : (pool'.take (min (min target tiles.length -
            tiles.countP (fun t => isVowel t.letter))
            (nonVowelIdxs tiles).length)).Nodup :=
          (List.take_sublist _ _).nodup hpoolnd
        have hchmem : ∀ i ∈ pool'.take (min (min target tiles.length -
            tiles.countP (fun t => isVowel t.letter))
            (nonVowelIdxs tiles).length),
            ∃ t, tiles.get? i = Option.some t ∧ isVowel t.letter = false :=
          fun i hi => nonVowelIdxs_mem tiles i
            (hperm.subset (List.take_subset _ _ hi))
        have hchlen : (pool'.take (min (min target tiles.length -
            tiles.countP (fun t => isVowel t.letter))
            (nonVowelIdxs tiles).length)).length =
            min (min target tiles.length -
              tiles.countP (fun t => isVowel t.letter))
              (nonVowelIdxs tiles).length := by
          rw [List.length_take, hpoollen]
          omega
        have hvt2 : Int.ofNat (pool'.take (min (min target tiles.length -
            tiles.countP (fun t => isVowel t.letter))
            (nonVowelIdxs tiles).length)).length ≤ vowelTotal bag := by
          rw [hchlen]
          simp only [Int.ofNat_eq_coe] at hvt ⊢
          omega
        obtain ⟨hids, hcount⟩ := vowelRedraw_fold
          (pool'.take (min (min target tiles.length -
            tiles.countP (fun t => isVowel t.letter))
            (nonVowelIdxs tiles).length))
          tiles bag rng' hchnd hchmem hwf hletters hvt2
        rcases hf : (pool'.take (min (min target tiles.length -
            tiles.countP (fun t => isVowel t.letter))
            (nonVowelIdxs tiles).length)).foldl vowelRedrawStep (tiles, bag, rng')
          with ⟨T, B, R⟩
        rw [hf] at hids hcount
        simp only [hf]
        refine ⟨hids, ?_⟩
        rw [hcount, hchlen]
        omega

theorem createTilesGo_spec (coords : List (Nat × Nat)) :
    ∀ (bag : Bag) (rng : Rng), bagWF bag →
    (createTilesGo coords bag rng).1.map TileModel.id =
        coords.map (fun p => tileId p.1 p.2) ∧
      (∀ t ∈ (createTilesGo coords bag rng).1, alphaStr t.letter) ∧
      bagWF (createTilesGo coords bag rng).2.1 ∧
      vowelTotal bag - Int.ofNat coords.length ≤
        vowelTotal (createTilesGo coords bag rng).2.1 := by
  induction coords with
  | nil =>
    intro bag rng hwf
    simp only [createTilesGo, List.length_nil, Int.ofNat_eq_coe]
    refine ⟨rfl, ?_, hwf, by omega⟩
    intro t ht
    exact absurd ht (List.not_mem_nil t)
  | cons p rest ih =>
    intro bag rng hwf
    rcases p with ⟨x, y⟩
    simp only [createTilesGo]
    rcases hd : drawLetterFromBag bag Option.none rng with ⟨res, bag1, rng1⟩
    have hdraw := drawLetterFromBag_wf bag Option.none rng hwf
    simp only [hd] at hdraw
    simp only [hd]
    have hd1 : alphaStr res.1 := hdraw.1
    have hd2 : bagWF bag1 := hdraw.2.1
    have hd3 : vowelTotal bag - 1 ≤ vowelTotal bag1 := hdraw.2.2
    rcases hrest : createTilesGo rest bag1 rng1 with ⟨restTiles, bag2, rng2⟩
    obtain ⟨hids, hlet, hwf2, hvt2⟩ := ih bag1 rng1 hd2
    simp only [hrest] at hids hlet hwf2 hvt2
    simp only [hrest]
    refine ⟨?_, ?_, hwf2, ?_⟩
    · simp only [List.map_cons, hids]
    · intro t ht
      rcases List.mem_cons.mp ht with h | h
      · rw [h]
        exact hd1
      · exact hlet t h
    · simp only [List.length_cons, Int.ofNat_eq_coe] at hvt2 ⊢
      omega

theorem buildLetterBag_wf : bagWF buildLetterBag := by
  constructor
  · decide
  · decide

theorem buildLetterBag_vowelTotal : vowelTotal buildLetterBag = 42 := by decide

attribute [irreducible] buildLetterBag
attribute [irreducible] drawLetterFromBag
attribute [irreducible] createTilesGo
attribute [irreducible] assignRandomGems
attribute [irreducible] ensureMinimumVowels

theorem gridCoords_length : gridCoords.length = 25 := by decide

theorem gridCoords_ids_nodup : (gridCoords.map (fun p => tileId p.1 p.2)).Nodup := by
  decide

theorem gridCoords_bounds : ∀ p ∈ gridCoords, p.1 ≤ 4 ∧ p.2 ≤ 4 := by decide

theorem createTiles_spec (rng : Rng) :
    (createTiles false false rng).1.map TileModel.id =
        gridCoords.map (fun p => tileId p.1 p.2) ∧
      MIN_VOWELS ≤ (createTiles false false rng).1.countP
        (fun t => isVowel t.letter) := by
  rcases hgo : createTilesGo gridCoords buildLetterBag rng with ⟨tiles0, bag1, rng1⟩
  obtain ⟨hids0, hlet0, hwf1, hvt1⟩ :=
    createTilesGo_spec gridCoords buildLetterBag rng buildLetterBag_wf
  simp only [hgo] at hids0 hlet0 hwf1 hvt1
  rcases hag : assignRandomGems tiles0 GEM_TARGET rng1 with ⟨tiles1, rng2⟩
  have hpair := assignRandomGems_pair tiles0 GEM_TARGET rng1
  simp only [hag] at hpair
  have hids1 : tiles1.map TileModel.id = tiles0.map TileModel.id :=
    map_id_of_map_pair_eq _ _ hpair
  have hlet1 : ∀ t ∈ tiles1, alphaStr t.letter :=
    forall_letter_of_map_eq _ _ hpair hlet0
  have hlen0 : tiles0.length = 25 := by
    have h := congrArg List.length hids0
    rw [List.length_map, List.length_map] at h
    rw [h, gridCoords_length]
  have hlen1 : tiles1.length = 25 := by
    have h := congrArg List.length hids1
    rw [List.length_map, List.length_map] at h
    rw [h]
    exact hlen0
  have hvtb : Int.ofNat MIN_VOWELS ≤ vowelTotal bag1 := by
    simp only [Int.ofNat_eq_coe] at hvt1 ⊢
    rw [buildLetterBag_vowelTotal, gridCoords_length] at hvt1
    simp only [MIN_VOWELS]
    omega
  rcases hem : ensureMinimumVowels tiles1 MIN_VOWELS (Option.some bag1) rng2
    with ⟨tiles2, bagOpt, rng3⟩
  obtain ⟨hids2, hcnt2⟩ :=
    ensureMinimumVowels_spec tiles1 MIN_VOWELS bag1 rng2 hwf1 hlet1 hvtb
  simp only [hem] at hids2 hcnt2
  have hcreate : createTiles false false rng = (tiles2, rng3) := by
    delta createTiles
    simp only [hgo]
    simp only [hag]
    simp only [hem]
    rfl
  rw [hcreate]
  constructor
  · show tiles2.map TileModel.id = gridCoords.map (fun p => tileId p.1 p.2)
    rw [hids2, hids1, hids0]
  · show MIN_VOWELS ≤ tiles2.countP (fun t => isVowel t.letter)
    have hm : min MIN_VOWELS tiles1.length = MIN_VOWELS := by
      rw [hlen1]
      decide
    rw [hm] at hcnt2
    exact hcnt2

attribute [irreducible] createTiles

/-- Claim C9: every board produced by `createInitialGameState` has exactly
25 tiles, with pairwise-distinct ids of the form `"x-y"` for `0 ≤ x, y ≤ 4`,
and at least `MIN_VOWELS` tiles whose letter is a vowel. -/
theorem C9_board_invariants (totalRounds now : Nat) (rng : Rng) :
    (createInitialGameState totalRounds now rng).1.tiles.length = 25 ∧
      ((createInitialGameState totalRounds now rng).1.tiles.map TileModel.id).Nodup ∧
      (∀ t ∈ (createInitialGameState totalRounds now rng).1.tiles,
        ∃ x y, x ≤ 4 ∧ y ≤ 4 ∧ t.id = tileId x y) ∧
      MIN_VOWELS ≤ (createInitialGameState totalRounds now rng).1.tiles.countP
        (fun t => isVowel t.letter) := by
  have hstate : (createInitialGameState totalRounds now rng).1.tiles =
      (createTiles false false rng).1 := by
    rcases hc : createTiles false false rng with ⟨ts, r⟩
    delta createInitialGameState
    rw [hc]
  obtain ⟨hids, hcnt⟩ := createTiles_spec rng
  rw [hstate]
  refine ⟨?_, ?_, ?_, hcnt⟩
  · have h := congrArg List.length hids
    rw [List.length_map, List.length_map] at h
    rw [h, gridCoords_length]
  · rw [hids]
    exact gridCoords_ids_nodup
  · intro t ht
    have hmem : t.id ∈ gridCoords.map (fun p => tileId p.1 p.2) := by
      rw [← hids]
      exact List.mem_map.mpr ⟨t, ht, rfl⟩
    obtain ⟨p, hp, he⟩ := List.mem_map.mp hmem
    obtain ⟨hx, hy⟩ := gridCoords_bounds p hp
    exact ⟨p.1, p.2, hx, hy, he.symm⟩


end Spellcast
